import Mathlib

/-!
Verification development for the ET office portal bulk ingestion, indexing
and lookup pipeline.  The definitions below are a shallow embedding of the
JavaScript/TypeScript source:

* the invoice importer (`src/unnamed/part_017`, streaming header/detail/totals
  passes) and its older non-streaming variant (`src/unnamed/part_016`),
* the inverted-index builder (`src/scripts/build_item_customer_index.mjs`),
* the interactive lookup route (`src/unnamed/part_002`).

Machine numbers are modelled as `ℚ` (exact arithmetic), JS `Date` values as
the integer day count produced by the ECMAScript `MakeDay` normalization,
CSV rows as association lists of column name to raw string, and Firestore
documents as field-name-indexed partial maps with merge-upsert semantics.
-/

namespace ETPortal

/-- The whitespace class of JS `String.prototype.trim` (ASCII part, which
is all this pipeline's inputs contain). -/
def isJsSpace (c : Char) : Bool :=
  c = ' ' || c = '\t' || c = '\n' || c = '\r' || c = '\x0b' || c = '\x0c'

/-- Model of `String.prototype.trim`: strip leading and trailing
whitespace. -/
def jsTrim (s : String) : String :=
  String.mk (((s.data.dropWhile isJsSpace).reverse.dropWhile isJsSpace).reverse)

/-- Character-wise map on strings. -/
def mapChars (f : Char → Char) (s : String) : String :=
  String.mk (s.data.map f)

/-- Model of the JS helper `cleanStr`: `undefined`/`null` become `""`,
anything else is stringified and trimmed.  `Option String` stands for a
possibly-undefined string value. -/
def cleanStr (v : Option String) : String :=
  match v with
  | none => ""
  | some s => jsTrim s

/-- Decimal value of a list of digit characters (model of `Number` applied
to an all-digit string). -/
def digitsVal (cs : List Char) : ℕ :=
  cs.foldl (fun a c => 10 * a + (c.toNat - 48)) 0

/-- Model of the ECMAScript `StringToNumber` on the decimal literals that
occur in this pipeline: an optional sign, integer digits, an optional
fraction.  Empty / whitespace-only input denotes `0` (as in JS); anything
that does not match yields `none`, standing for `NaN`. -/
def parseDecimalCore (cs : List Char) : Option ℚ :=
  let ip := cs.takeWhile Char.isDigit
  let rest := cs.dropWhile Char.isDigit
  match rest with
  | [] => if ip.isEmpty then none else some (digitsVal ip : ℚ)
  | '.' :: fr =>
    let fp := fr.takeWhile Char.isDigit
    let rest2 := fr.dropWhile Char.isDigit
    if rest2.isEmpty && !(ip.isEmpty && fp.isEmpty) then
      some ((digitsVal ip : ℚ) + (digitsVal fp : ℚ) / ((10 : ℚ) ^ fp.length))
    else none
  | _ => none

/-- `jsNumber s` models `Number(s)` (returning `none` for `NaN`). -/
def jsNumber (s : String) : Option ℚ :=
  let t := jsTrim s
  match t.data with
  | [] => some 0
  | '-' :: cs => (parseDecimalCore cs).map (fun q => -q)
  | '+' :: cs => parseDecimalCore cs
  | cs => parseDecimalCore cs

/-- `parseNumber` from the importers: trim, strip every `,` and `$`,
`Number(...)`; non-finite / non-numeric input yields `0`. -/
def parseNumber (v : Option String) : ℚ :=
  let s := cleanStr v
  if s = "" then 0
  else
    match jsNumber (String.mk (s.data.filter (fun c => !(c = ',' || c = '$')))) with
    | some n => n
    | none => 0

/-- Hinnant day count for a civil date with month in `1..12`; the day
component may be arbitrary (it enters linearly, exactly as the ECMAScript
`MakeDay` treats an out-of-range day). Day `0` is 1970-01-01. -/
def daysFromCivil (y m d : ℤ) : ℤ :=
  let yy := if m ≤ 2 then y - 1 else y
  let era := yy.fdiv 400
  let yoe := yy - era * 400
  let mp := if m ≤ 2 then m + 9 else m - 3
  let doy := (153 * mp + 2).fdiv 5 + d - 1
  let doe := yoe * 365 + yoe.fdiv 4 - yoe.fdiv 100 + doy
  era * 146097 + doe - 719468

/-- `jsDateValue y mIdx d` models the day number of `new Date(y, mIdx, d)`
(month index based at 0, both month and day normalized by carrying).
Years `0..99` map to `1900..1999`, as the `Date` constructor specifies. -/
def jsDateValue (y mIdx d : ℤ) : ℤ :=
  let yFull := if 0 ≤ y ∧ y ≤ 99 then y + 1900 else y
  daysFromCivil (yFull + mIdx.fdiv 12) (mIdx.emod 12 + 1) d

/-- The anchored regex `^(\d{1,2})\/(\d{1,2})\/(\d{4})$` of `parseUSDate`:
returns the numeric (month, day, year) when the string matches. -/
def matchUSDate (s : String) : Option (ℕ × ℕ × ℕ) :=
  let cs := s.data
  let mm := cs.takeWhile Char.isDigit
  let r1 := cs.dropWhile Char.isDigit
  if mm.length = 0 ∨ 2 < mm.length then none
  else
    match r1 with
    | '/' :: r2 =>
      let dd := r2.takeWhile Char.isDigit
      let r3 := r2.dropWhile Char.isDigit
      if dd.length = 0 ∨ 2 < dd.length then none
      else
        match r3 with
        | '/' :: r4 =>
          let yy := r4.takeWhile Char.isDigit
          let r5 := r4.dropWhile Char.isDigit
          if yy.length = 4 ∧ r5 = [] then some (digitsVal mm, digitsVal dd, digitsVal yy)
          else none
        | _ => none
    | _ => none

/-- `parseUSDate` from the importers: trim, match `MM/DD/YYYY` (1-2 digit
month/day), reject a zero month/day/year, and build
`new Date(year, month - 1, day)`.  No calendar validation is performed. -/
def parseUSDate (v : Option String) : Option ℤ :=
  let s := cleanStr v
  match matchUSDate s with
  | none => none
  | some (m, d, y) =>
    if m = 0 ∨ d = 0 ∨ y = 0 then none
    else some (jsDateValue (y : ℤ) ((m : ℤ) - 1) (d : ℤ))

/-- `normalizeDocId`: Firestore doc ids cannot contain `/`; replace each by
`-` after cleaning. -/
def normalizeDocId (v : Option String) : String :=
  mapChars (fun c => if c = '/' then '-' else c) (cleanStr v)

/-- Model of `String.prototype.padStart(4, "0")`. -/
def padStart4 (s : String) : String :=
  if 4 ≤ s.length then s else String.mk (List.replicate (4 - s.length) '0' ++ s.data)

/-- `padSalesperson` from the index builder: empty stays empty, length `≥ 4`
passes through, shorter values (numeric or not) are left-padded with `0`. -/
def padSalesperson (v : Option String) : String :=
  let s := cleanStr v
  if s = "" then "" else if 4 ≤ s.length then s else padStart4 s

/-- `normRep` from the lookup route: keep the digits when there are any,
otherwise the raw trimmed string, then pad to width 4 with `0`. -/
def normRep (v : Option String) : String :=
  let s := cleanStr v
  if s = "" then ""
  else
    let digits := String.mk (s.data.filter Char.isDigit)
    padStart4 (if digits = "" then s else digits)

/-- A source record: an ordered association of column names to raw values,
as produced by the CSV parser for one row. -/
abbrev Row := List (String × String)

/-- `ciGet row key`: exact key first, then the first case-insensitive match;
a matching key that is itself the empty string is falsy in JS and yields
`undefined`. -/
def ciGet (row : Row) (key : String) : Option String :=
  match row.find? (fun p => p.1 == key) with
  | some p => some p.2
  | none =>
    match row.find? (fun p => mapChars Char.toLower p.1 == mapChars Char.toLower key) with
    | some p => if p.1 = "" then none else some p.2
    | none => none

/-- JS `Set.add` on insertion-ordered sets modelled as duplicate-free lists. -/
def setAdd (l : List String) (x : String) : List String :=
  if x ∈ l then l else l ++ [x]

/-- JS `Map.get` on insertion-ordered maps modelled as association lists
(keys are unique, as in a JS `Map`). -/
def alFind {α : Type} : List (String × α) → String → Option α
  | [], _ => none
  | p :: m, k => if p.1 = k then some p.2 else alFind m k

/-- JS `Map.set`: update in place when the key exists, append otherwise. -/
def alSet {α : Type} : List (String × α) → String → α → List (String × α)
  | [], k, v => [(k, v)]
  | p :: m, k, v => if p.1 = k then (k, v) :: m else p :: alSet m k v

/-- A Firestore field value, as far as this pipeline writes them. -/
inductive Val where
  | s : String → Val
  | n : ℚ → Val
  | d : ℤ → Val
  | arr : List String → Val
  | raw : Row → Val
  | srcRef : String → ℕ → Val
deriving DecidableEq

/-- Addresses of the documents written by the pipeline. -/
inductive DocPath where
  | invoice : String → DocPath
  | line : String → String → DocPath
  | indexDoc : String → DocPath
deriving DecidableEq

/-- A write payload: field names with values, in source order. -/
abbrev Doc := List (String × Val)

/-- One enqueued `batch.set(ref, payload, { merge: true })`. -/
structure Write where
  path : DocPath
  payload : Doc
deriving DecidableEq

/-- Field lookup in a payload. -/
def lookupField (p : Doc) (f : String) : Option Val :=
  (p.find? (fun q => q.1 == f)).map (fun q => q.2)

/-- A stored document: a partial map from field names to values. -/
def StoredDoc := String → Option Val

/-- The document store: a partial map from paths to stored documents. -/
def Store := DocPath → Option StoredDoc

/-- The empty store. -/
def emptyStore : Store := fun _ => none

/-- Merge a payload over an existing stored document: fields present in the
payload overwrite, everything else is kept (`{ merge: true }` semantics). -/
def mergeDoc (old : StoredDoc) (p : Doc) : StoredDoc :=
  fun f =>
    match lookupField p f with
    | some v => some v
    | none => old f

/-- Apply one merge-upsert. -/
def applyWrite (s : Store) (w : Write) : Store :=
  fun q =>
    if q = w.path then
      some (mergeDoc (fun f => match s q with | some d => d f | none => none) w.payload)
    else s q

/-- Apply a batch of merge-upserts in order. -/
def applyWrites (s : Store) (ws : List Write) : Store :=
  ws.foldl applyWrite s

/-- The value the last payload in a list assigns to a field (later payloads
win, mirroring repeated merge upserts). -/
def lastSet : List Doc → String → Option Val
  | [], _ => none
  | p :: ps, f =>
    match lastSet ps f with
    | some v => some v
    | none => lookupField p f

/-- The payloads a write list sends to a given path, in order. -/
def payloadsFor (ws : List Write) (q : DocPath) : List Doc :=
  (ws.filter (fun w => w.path = q)).map Write.payload

/-- Merge a list of payloads onto an optional existing document; the
document springs into existence as soon as one payload is written. -/
def mergeList (d : Option StoredDoc) (ps : List Doc) : Option StoredDoc :=
  match ps with
  | [] => d
  | _ => some (ps.foldl mergeDoc (fun f => match d with | some d0 => d0 f | none => none))

/-! ### The streaming invoice importer (`src/unnamed/part_017`)

Header pass, window-joined detail pass and totals pass.  `cutoff` and
`clock` are the run's cutoff date value and (fixed) server clock; each row
is visited with its 1-based `rowIndex`, exactly as `streamParseCsv` counts
rows (empty rows are counted, then skipped before `onRow`). -/

/-- `sanitizeRow`: trim keys, drop empty keys, replace `.` by `_`
(later occurrences of a colliding key overwrite, as object assignment does). -/
def sanitizeRow (row : Row) : Row :=
  row.foldl
    (fun out p =>
      let key := jsTrim p.1
      if key = "" then out
      else alSet out (mapChars (fun c => if c = '.' then '_' else c) key) p.2)
    []

/-- State of the part_017 header pass. -/
structure HeaderState17 where
  inRange : List String
  freight : List (String × ℚ)
  discount : List (String × ℚ)
  writes : List Write
deriving DecidableEq

/-- Header payload for part_017 (field order as in the source). -/
def headerPayload17 (clock : ℤ) (r : Row) (invoiceNo : String) (dv : ℤ)
    (freightAmt discountAmt : ℚ) (rowIndex : ℕ) : Doc :=
  [("invoiceNo", Val.s invoiceNo),
   ("invoiceDate", Val.d dv),
   ("customerNo", Val.s (cleanStr ((ciGet r "CustomerNo").or (ciGet r "CustomerNumber")))),
   ("arDivisionNo", Val.s (cleanStr ((ciGet r "ARDivisionNo").or (ciGet r "DivisionNo")))),
   ("salespersonNo", Val.s (padStart4 (cleanStr (ciGet r "SalespersonNo")))),
   ("taxAmt", Val.n (parseNumber (ciGet r "SalesTaxAmt"))),
   ("customerPONo", Val.s (cleanStr (ciGet r "CustomerPONo"))),
   ("nonTaxableSalesAmt", Val.n (parseNumber (ciGet r "NonTaxableSalesAmt"))),
   ("freightAmt", Val.n freightAmt),
   ("discountAmt", Val.n discountAmt),
   ("comment", Val.s (cleanStr (ciGet r "Comment"))),
   ("invoiceType", Val.s (cleanStr (ciGet r "InvoiceType"))),
   ("raw", Val.raw (sanitizeRow r)),
   ("importedAt", Val.d clock),
   ("source", Val.srcRef "Inv_HH.csv" rowIndex)]

/-- One header row of part_017 (`onRow` of the header pass). -/
def headerStep17 (cutoff clock : ℤ) (st : HeaderState17) (r : Row) (rowIndex : ℕ) :
    HeaderState17 :=
  if r = [] then st
  else if cleanStr (ciGet r "InvoiceNo") = "" then st
  else
    match parseUSDate (some (cleanStr ((ciGet r "InvoiceDate").or (ciGet r "Date")))) with
    | none => st
    | some dv =>
      if dv < cutoff then st
      else
        { inRange := setAdd st.inRange (cleanStr (ciGet r "InvoiceNo"))
          freight := alSet st.freight (cleanStr (ciGet r "InvoiceNo"))
            (parseNumber (ciGet r "FreightAmt"))
          discount := alSet st.discount (cleanStr (ciGet r "InvoiceNo"))
            (parseNumber (ciGet r "DiscountAmt"))
          writes := st.writes ++
            [{ path := DocPath.invoice (normalizeDocId (some (cleanStr (ciGet r "InvoiceNo")))),
               payload := headerPayload17 clock r (cleanStr (ciGet r "InvoiceNo")) dv
                 (parseNumber (ciGet r "FreightAmt")) (parseNumber (ciGet r "DiscountAmt"))
                 rowIndex }] }

/-- Fold the header pass over the remaining rows, `k` rows already read. -/
def headerRun17Aux (cutoff clock : ℤ) (st : HeaderState17) (k : ℕ) :
    List Row → HeaderState17
  | [] => st
  | r :: rs => headerRun17Aux cutoff clock (headerStep17 cutoff clock st r (k + 1)) (k + 1) rs

/-- The part_017 header pass over a whole file. -/
def headerRun17 (cutoff clock : ℤ) (rows : List Row) : HeaderState17 :=
  headerRun17Aux cutoff clock ⟨[], [], [], []⟩ 0 rows

/-- State of the part_017 detail pass. -/
structure DetailState17 where
  merchTotals : List (String × ℚ)
  writes : List Write
deriving DecidableEq

/-- `makeLineId`: deterministic child id from the parent key and the line
key, falling back to the row index. -/
def makeLineId (invoiceNo lineKey : String) (rowIndex : ℕ) : String :=
  let k := cleanStr (some lineKey)
  if k ≠ "" then normalizeDocId (some (invoiceNo ++ "__" ++ k))
  else normalizeDocId (some (invoiceNo ++ "__" ++ toString rowIndex))

/-- Line payload for part_017 (field order as in the source). -/
def linePayload17 (clock : ℤ) (r : Row) (invoiceNo : String)
    (unitPrice extensionAmt : ℚ) (rowIndex : ℕ) : Doc :=
  [("invoiceNo", Val.s invoiceNo),
   ("itemCode", Val.s (cleanStr (ciGet r "ItemCode"))),
   ("itemCodeDesc", Val.s (cleanStr (ciGet r "ItemCodeDesc"))),
   ("quantityShipped", Val.n (parseNumber (ciGet r "QuantityShipped"))),
   ("discount", Val.n (parseNumber (ciGet r "Discount"))),
   ("productLine", Val.s (cleanStr (ciGet r "ProductLine"))),
   ("aliasItemNo", Val.s (cleanStr (ciGet r "AliasItemNo"))),
   ("commentText", Val.s (cleanStr (ciGet r "CommentText"))),
   ("unitPrice", Val.n unitPrice),
   ("extensionAmt", Val.n extensionAmt),
   ("warehouseCode", Val.s (cleanStr (ciGet r "WarehouseCode"))),
   ("salesAcctKey", Val.s (cleanStr (ciGet r "SalesAcctKey"))),
   ("raw", Val.raw (sanitizeRow r)),
   ("importedAt", Val.d clock),
   ("source", Val.srcRef "Inv_HD.csv" rowIndex)]

/-- The `LineKey ?? InvoiceLineKey ?? DetailSeqNo ?? LineSeqNo ?? ""` chain. -/
def lineKeyOf (r : Row) : String :=
  ((((ciGet r "LineKey").or (ciGet r "InvoiceLineKey")).or
      (ciGet r "DetailSeqNo")).or (ciGet r "LineSeqNo")).getD ""

/-- One detail row of part_017 (`onRow` of the line pass). -/
def lineStep17 (inRange : List String) (clock : ℤ) (st : DetailState17) (r : Row)
    (rowIndex : ℕ) : DetailState17 :=
  if r = [] then st
  else if cleanStr (ciGet r "InvoiceNo") = "" ∨ cleanStr (ciGet r "InvoiceNo") ∉ inRange then st
  else if cleanStr (ciGet r "ItemCode") = "" ∧ cleanStr (ciGet r "ItemCodeDesc") = "" then st
  else
    { merchTotals :=
        alSet st.merchTotals (cleanStr (ciGet r "InvoiceNo"))
          (((alFind st.merchTotals (cleanStr (ciGet r "InvoiceNo"))).getD 0) +
            parseNumber (ciGet r "ExtensionAmt"))
      writes := st.writes ++
        [{ path := DocPath.line (normalizeDocId (some (cleanStr (ciGet r "InvoiceNo"))))
             (makeLineId (cleanStr (ciGet r "InvoiceNo")) (lineKeyOf r) rowIndex)
           payload := linePayload17 clock r (cleanStr (ciGet r "InvoiceNo"))
             (parseNumber (ciGet r "UnitPrice")) (parseNumber (ciGet r "ExtensionAmt"))
             rowIndex }] }

/-- Fold the detail pass over the remaining rows, `k` rows already read. -/
def detailRun17Aux (inRange : List String) (clock : ℤ) (st : DetailState17) (k : ℕ) :
    List Row → DetailState17
  | [] => st
  | r :: rs => detailRun17Aux inRange clock (lineStep17 inRange clock st r (k + 1)) (k + 1) rs

/-- The part_017 detail pass over a whole file. -/
def detailRun17 (inRange : List String) (clock : ℤ) (rows : List Row) : DetailState17 :=
  detailRun17Aux inRange clock ⟨[], []⟩ 0 rows

/-- The totals write for one accumulated `(invoiceNo, merchTotal)` entry:
`invoiceTotalComputed = merchTotal + freight - discount` with the freight and
discount captured by the header pass (`|| 0` when absent). -/
def mkTotalsWrite17 (clock : ℤ) (freight discount : List (String × ℚ))
    (p : String × ℚ) : Write :=
  { path := DocPath.invoice (normalizeDocId (some p.1))
    payload :=
      [("merchTotal", Val.n p.2),
       ("invoiceTotalComputed",
         Val.n (p.2 + ((alFind freight p.1).getD 0) - ((alFind discount p.1).getD 0))),
       ("totalsComputedAt", Val.d clock)] }

/-- The totals pass: one write per accumulated parent, in map order. -/
def totalsWrites17 (clock : ℤ) (freight discount merchTotals : List (String × ℚ)) :
    List Write :=
  merchTotals.map (mkTotalsWrite17 clock freight discount)

/-! ### The inverted-index builder (`src/scripts/build_item_customer_index.mjs`) -/

/-- The `a ?? b ?? c` triple fallback used for the invoice-number column. -/
def ciGet3 (r : Row) (a b c : String) : Option String :=
  ((ciGet r a).or (ciGet r b)).or (ciGet r c)

/-- One header row of the index builder: map in-range invoices with a
usable customer and salesperson to that pair. -/
def invMapStep (cutoff : ℤ) (m : List (String × (String × String))) (r : Row) :
    List (String × (String × String)) :=
  if cleanStr (ciGet3 r "InvoiceNo" "InvoiceNumber" "Invoice") = "" then m
  else
    match parseUSDate (some (cleanStr ((ciGet r "InvoiceDate").or (ciGet r "Date")))) with
    | none => m
    | some dv =>
      if dv < cutoff then m
      else if cleanStr ((ciGet r "CustomerNo").or (ciGet r "CustomerNumber")) = "" ∨
          padSalesperson (ciGet3 r "SalespersonNo" "SalesmanNo" "Salesperson") = "" then m
      else
        alSet m (cleanStr (ciGet3 r "InvoiceNo" "InvoiceNumber" "Invoice"))
          (cleanStr ((ciGet r "CustomerNo").or (ciGet r "CustomerNumber")),
           padSalesperson (ciGet3 r "SalespersonNo" "SalesmanNo" "Salesperson"))

/-- The index builder's header pass. -/
def invMapRun (cutoff : ℤ) (rows : List Row) : List (String × (String × String)) :=
  rows.foldl (invMapStep cutoff) []

/-- One in-memory inverted-index entry. -/
structure IdxEntry where
  itemCode : String
  salespersonNo : String
  customers : List String
deriving DecidableEq

/-- The uppercased, cleaned item code of a detail row. -/
def itemCodeOf (r : Row) : String :=
  mapChars Char.toUpper (cleanStr ((ciGet r "ItemCode").or (ciGet r "Item")))

/-- One detail row of the index builder: add the header's customer to the
`(itemCode, salespersonNo)` bucket, keyed by the composite string. -/
def idxStep (invMap : List (String × (String × String)))
    (idx : List (String × IdxEntry)) (r : Row) : List (String × IdxEntry) :=
  if cleanStr (ciGet3 r "InvoiceNo" "InvoiceNumber" "Invoice") = "" then idx
  else
    match alFind invMap (cleanStr (ciGet3 r "InvoiceNo" "InvoiceNumber" "Invoice")) with
    | none => idx
    | some hdr =>
      if itemCodeOf r = "" then idx
      else
        alSet idx (itemCodeOf r ++ "__" ++ hdr.2)
          { itemCode :=
              ((alFind idx (itemCodeOf r ++ "__" ++ hdr.2)).getD
                ⟨itemCodeOf r, hdr.2, []⟩).itemCode
            salespersonNo :=
              ((alFind idx (itemCodeOf r ++ "__" ++ hdr.2)).getD
                ⟨itemCodeOf r, hdr.2, []⟩).salespersonNo
            customers :=
              setAdd ((alFind idx (itemCodeOf r ++ "__" ++ hdr.2)).getD
                ⟨itemCodeOf r, hdr.2, []⟩).customers hdr.1 }

/-- The index builder's accumulation pass. -/
def idxRun (invMap : List (String × (String × String))) (rows : List Row) :
    List (String × IdxEntry) :=
  rows.foldl (idxStep invMap) []

/-- JS `Array.prototype.sort()` on an array of strings (default
lexicographic comparator). -/
def jsSortStrings (cs : List String) : List String :=
  cs.mergeSort (fun a b => a ≤ b)

/-- The payload of one index document. -/
def indexPayload (clock : ℤ) (yearsBack : ℚ) (e : IdxEntry) : Doc :=
  let customerNos := jsSortStrings e.customers
  [("itemCode", Val.s e.itemCode),
   ("salespersonNo", Val.s e.salespersonNo),
   ("customerNos", Val.arr customerNos),
   ("customerCount", Val.n (customerNos.length : ℚ)),
   ("yearsBack", Val.n yearsBack),
   ("sourceFiles", Val.raw [("headers", "Inv_HH.csv"), ("lines", "Inv_HD.csv")]),
   ("updatedAt", Val.d clock)]

/-- One write per accumulated index key, in map order. -/
def indexWrites (clock : ℤ) (yearsBack : ℚ) (idx : List (String × IdxEntry)) :
    List Write :=
  idx.map (fun p =>
    { path := DocPath.indexDoc (normalizeDocId (some p.1))
      payload := indexPayload clock yearsBack p.2 })

/-- All writes of one full ingestion run (part_017 header, detail and
totals passes followed by the index builder) over a fixed input file pair,
cutoff and server clock. -/
def ingestAllWrites (cutoff clock : ℤ) (yearsBack : ℚ) (hh hd : List Row) : List Write :=
  let h := headerRun17 cutoff clock hh
  let l := detailRun17 h.inRange clock hd
  let t := totalsWrites17 clock h.freight h.discount l.merchTotals
  let im := invMapRun cutoff hh
  let ix := idxRun im hd
  h.writes ++ l.writes ++ t ++ indexWrites clock yearsBack ix

/-! ### The non-streaming importer's header loop (`src/unnamed/part_016`)

It tracks `headersWritten` and a single `headersSkipped` counter that is
incremented both for a missing invoice number and for a missing or
out-of-window date. -/

/-- Result of the part_016 header loop. -/
structure HeaderResult16 where
  written : ℕ
  skipped : ℕ
  inRange : List String
  writes : List Write
deriving DecidableEq

/-- Header payload for part_016 (field order as in the source). -/
def headerPayload16 (clock : ℤ) (r : Row) (invoiceNo : String) (dv : ℤ)
    (rowIndex : ℕ) : Doc :=
  [("invoiceNo", Val.s invoiceNo),
   ("invoiceDate", Val.d dv),
   ("customerNo", Val.s (cleanStr ((ciGet r "CustomerNo").or (ciGet r "CustomerNumber")))),
   ("arDivisionNo", Val.s (cleanStr ((ciGet r "ARDivisionNo").or (ciGet r "DivisionNo")))),
   ("salespersonNo",
     Val.s (padStart4 (cleanStr (ciGet3 r "SalespersonNo" "SalesmanNo" "Salesperson")))),
   ("invoiceTotal",
     Val.n (parseNumber ((((ciGet r "InvoiceTotal").or (ciGet r "Total")).or
       (ciGet r "InvoiceAmt")).or (ciGet r "InvoiceAmount")))),
   ("taxAmt", Val.n (parseNumber ((ciGet r "TaxAmt").or (ciGet r "TaxAmount")))),
   ("freightAmt", Val.n (parseNumber ((ciGet r "FreightAmt").or (ciGet r "FreightAmount")))),
   ("raw", Val.raw (sanitizeRow r)),
   ("importedAt", Val.d clock),
   ("source", Val.srcRef "Inv_HH.csv" rowIndex)]

/-- One iteration of the part_016 header loop (row `i`, 0-based). -/
def header16Step (cutoff clock : ℤ) (st : HeaderResult16) (r : Row) (i : ℕ) :
    HeaderResult16 :=
  if cleanStr (ciGet3 r "InvoiceNo" "InvoiceNumber" "Invoice") = "" then
    { st with skipped := st.skipped + 1 }
  else
    match parseUSDate (some (cleanStr ((ciGet r "InvoiceDate").or (ciGet r "Date")))) with
    | none => { st with skipped := st.skipped + 1 }
    | some dv =>
      if dv < cutoff then { st with skipped := st.skipped + 1 }
      else
        { written := st.written + 1
          skipped := st.skipped
          inRange := setAdd st.inRange (cleanStr (ciGet3 r "InvoiceNo" "InvoiceNumber" "Invoice"))
          writes := st.writes ++
            [{ path := DocPath.invoice
                 (normalizeDocId (some (cleanStr (ciGet3 r "InvoiceNo" "InvoiceNumber" "Invoice"))))
               payload := headerPayload16 clock r
                 (cleanStr (ciGet3 r "InvoiceNo" "InvoiceNumber" "Invoice")) dv (i + 1) }] }

/-- Fold the part_016 header loop, `i` rows already processed. -/
def header16RunAux (cutoff clock : ℤ) (st : HeaderResult16) (i : ℕ) :
    List Row → HeaderResult16
  | [] => st
  | r :: rs => header16RunAux cutoff clock (header16Step cutoff clock st r i) (i + 1) rs

/-- The part_016 header loop over a whole file. -/
def header16Run (cutoff clock : ℤ) (rows : List Row) : HeaderResult16 :=
  header16RunAux cutoff clock ⟨0, 0, [], []⟩ 0 rows

/-- Spec-side counter (from the spec's output contract, for comparison with
the source): rows skipped for a missing natural key. -/
def specMissingKeyCount16 (rows : List Row) : ℕ :=
  rows.countP (fun r => cleanStr (ciGet3 r "InvoiceNo" "InvoiceNumber" "Invoice") = "")

/-- Spec-side counter: rows with a key but a missing, unparsable or
out-of-window timestamp. -/
def specOutOfWindowCount16 (cutoff : ℤ) (rows : List Row) : ℕ :=
  rows.countP (fun r =>
    decide (cleanStr (ciGet3 r "InvoiceNo" "InvoiceNumber" "Invoice") ≠ "") &&
      match parseUSDate (some (cleanStr ((ciGet r "InvoiceDate").or (ciGet r "Date")))) with
      | none => true
      | some dv => decide (dv < cutoff))

/-! ### The batched writer's retry loop (`commitWithRetry`)

A commit attempt is modelled by an oracle `outcome : ℕ → Option String`
giving, for each attempt number, `none` for success or `some msg` for a
rejection with message `msg`.  The function returns the propagated error
(if any) together with the list of waits (in ms) it slept before
retrying. -/

/-- Transient-failure signature test (part_017's variant: `ABORTED`,
`DEADLINE_EXCEEDED`, `RESOURCE_EXHAUSTED`, `UNAVAILABLE` substrings). -/
def isTransientMsg (msg : String) : Bool :=
  decide ("ABORTED".data <:+: msg.data) ||
  decide ("DEADLINE_EXCEEDED".data <:+: msg.data) ||
  decide ("RESOURCE_EXHAUSTED".data <:+: msg.data) ||
  decide ("UNAVAILABLE".data <:+: msg.data)

/-- `commitWithRetry` from part_017: retry while the failure is transient
and `attempt <= 6`, sleeping `250 * attempt * attempt` ms before each
retry; otherwise propagate the error. -/
def commitWithRetry (outcome : ℕ → Option String) (attempt : ℕ) :
    Option String × List ℕ :=
  match outcome attempt with
  | none => (none, [])
  | some msg =>
    if h : attempt ≤ 6 ∧ isTransientMsg msg = true then
      let rest := commitWithRetry outcome (attempt + 1)
      (rest.1, 250 * attempt * attempt :: rest.2)
    else (some msg, [])
termination_by 7 - attempt
decreasing_by omega

/-! ### The interactive lookup route (`src/unnamed/part_002`) -/

/-- `toNumber` from the lookup route: strip `$` and `,`, trim, `Number`,
non-finite yields `0`. -/
def toNumber (v : Option String) : ℚ :=
  match v with
  | none => 0
  | some s =>
    match jsNumber (jsTrim (String.mk (s.data.filter (fun c => !(c = '$' || c = ','))))) with
    | some n => n
    | none => 0

/-- The four account tiers. -/
inductive Tier where
  | A
  | B
  | C
  | D
deriving DecidableEq

/-- `tierFromSales25`: fixed breakpoints, lower bound inclusive. -/
def tierFromSales25 (sales25 : ℚ) : Tier :=
  if 10000 ≤ sales25 then Tier.A
  else if 5000 ≤ sales25 then Tier.B
  else if 2000 ≤ sales25 then Tier.C
  else Tier.D

/-- A customer document as read by the opportunity scan. -/
structure CustDoc where
  id : String
  udf25TotalSales : Option String
deriving DecidableEq

/-- A candidate row of the opportunities list. -/
structure Cand where
  customerNo : String
  sales25 : ℚ
  tier : Tier
deriving DecidableEq

/-- `Math.min(x, 25)` over the possibly-`NaN` parsed `oppCount`
(`none` = `NaN`, which `Math.min` propagates). -/
def oppCountOf (raw : Option String) : Option ℚ :=
  match jsNumber (match raw with
    | none => "4"
    | some s => if s = "" then "4" else s) with
  | none => none
  | some v => some (min v 25)

/-- Truncation toward zero, as `ToIntegerOrInfinity` does. -/
def ratTrunc (q : ℚ) : ℤ := q.num.tdiv (q.den : ℤ)

/-- `arr.slice(0, endArg)`: `NaN` end keeps nothing, a negative end counts
from the end of the array, anything else is clamped to the length. -/
def jsSliceTo {α : Type} (l : List α) (endArg : Option ℚ) : List α :=
  match endArg with
  | none => []
  | some q =>
    if ratTrunc q < 0 then l.take (l.length - (-(ratTrunc q)).toNat)
    else l.take (min (ratTrunc q).toNat l.length)

/-- Merge of the `salespersonNo` / `salespersonNo2` query results,
de-duplicated by document id in first-seen order. -/
def mergeRepDocs (s1 s2 : List CustDoc) : List CustDoc :=
  ((s1 ++ s2).foldl
    (fun acc d => if acc.any (fun e => e.id = d.id) then acc else acc ++ [d]) [])

/-- The candidate accumulation of the opportunity scan: over the rep's
merged customer docs, drop buyers and keep the selected tier. -/
def oppCandidates (selectedTier : Tier) (buyerIds : List String)
    (s1 s2 : List CustDoc) : List Cand :=
  (mergeRepDocs s1 s2).foldl
    (fun acc d =>
      if buyerIds.contains d.id then acc
      else
        let sales25 := toNumber d.udf25TotalSales
        let computedTier := tierFromSales25 sales25
        if computedTier ≠ selectedTier then acc
        else acc ++ [{ customerNo := d.id, sales25 := sales25, tier := computedTier }])
    []

/-- The opportunity scan of the lookup route: candidates sorted by trailing
sales descending, sliced to `Math.min(Number(oppCount), 25)`. -/
def opportunitiesFor (oppCountRaw : Option String) (selectedTier : Tier)
    (buyerIds : List String) (s1 s2 : List CustDoc) : List Cand :=
  jsSliceTo ((oppCandidates selectedTier buyerIds s1 s2).mergeSort
    (fun a b => b.sales25 ≤ a.sales25)) (oppCountOf oppCountRaw)

/-- Spec-side validity of a `MM/DD/YYYY` string as an actual calendar date
(from the spec's words, for comparison with `parseUSDate`): the pattern
must match and the month and day must be in calendar range. -/
def specValidUSDateStr (s : String) : Bool :=
  match matchUSDate (jsTrim s) with
  | none => false
  | some (m, d, y) =>
    let leap := (y % 4 = 0 ∧ y % 100 ≠ 0) ∨ y % 400 = 0
    let dim : ℕ :=
      if m = 2 then (if leap then 29 else 28)
      else if m = 4 ∨ m = 6 ∨ m = 9 ∨ m = 11 then 30
      else 31
    1 ≤ m ∧ m ≤ 12 ∧ 1 ≤ d ∧ d ≤ dim ∧ 1 ≤ y

/-! ### Derived predicates and write descriptions for the part_017 passes -/

/-- The header pass keeps a row exactly when it is nonempty, has an invoice
number, and its date parses to a value at or after the cutoff (mirrors the
guards of `headerStep17`). -/
def headKept (cutoff : ℤ) (r : Row) : Bool :=
  !decide (r = []) && !decide (cleanStr (ciGet r "InvoiceNo") = "") &&
    (match parseUSDate (some (cleanStr ((ciGet r "InvoiceDate").or (ciGet r "Date")))) with
     | none => false
     | some dv => !decide (dv < cutoff))

/-- The detail pass keeps a row exactly when it is nonempty, its invoice
number is nonempty and in the in-window set, and it has an item code or an
item description (mirrors the guards of `lineStep17`). -/
def lineKept (inRange : List String) (r : Row) : Bool :=
  !decide (r = []) &&
  !decide (cleanStr (ciGet r "InvoiceNo") = "" ∨ cleanStr (ciGet r "InvoiceNo") ∉ inRange) &&
  !decide (cleanStr (ciGet r "ItemCode") = "" ∧ cleanStr (ciGet r "ItemCodeDesc") = "")

/-- The header write `headerStep17` enqueues for a kept row. -/
def headerWriteOf17 (clock : ℤ) (r : Row) (rowIndex : ℕ) : Write :=
  { path := DocPath.invoice (normalizeDocId (some (cleanStr (ciGet r "InvoiceNo"))))
    payload := headerPayload17 clock r (cleanStr (ciGet r "InvoiceNo"))
      ((parseUSDate (some (cleanStr ((ciGet r "InvoiceDate").or (ciGet r "Date"))))).getD 0)
      (parseNumber (ciGet r "FreightAmt")) (parseNumber (ciGet r "DiscountAmt")) rowIndex }

/-- The line write `lineStep17` enqueues for a kept row. -/
def lineWriteOf (clock : ℤ) (r : Row) (rowIndex : ℕ) : Write :=
  { path := DocPath.line (normalizeDocId (some (cleanStr (ciGet r "InvoiceNo"))))
      (makeLineId (cleanStr (ciGet r "InvoiceNo")) (lineKeyOf r) rowIndex)
    payload := linePayload17 clock r (cleanStr (ciGet r "InvoiceNo"))
      (parseNumber (ciGet r "UnitPrice")) (parseNumber (ciGet r "ExtensionAmt")) rowIndex }

/-- The source row index a write carries in its `source` field. -/
def wSrcIdx (w : Write) : Option ℕ :=
  match lookupField w.payload "source" with
  | some (Val.srcRef _ i) => some i
  | _ => none

/-- The `extensionAmt` contributions of the kept detail rows of one parent,
in file order. -/
def lineContribs (inRange : List String) (inv : String) (rows : List Row) : List ℚ :=
  rows.filterMap (fun r =>
    if lineKept inRange r = true ∧ cleanStr (ciGet r "InvoiceNo") = inv then
      some (parseNumber (ciGet r "ExtensionAmt"))
    else none)

/-- The line writes the detail pass produces from the remaining rows, `k`
rows already read. -/
def lineWritesFrom (inRange : List String) (clock : ℤ) : ℕ → List Row → List Write
  | _, [] => []
  | k, r :: rs =>
    (if lineKept inRange r = true then [lineWriteOf clock r (k + 1)] else []) ++
      lineWritesFrom inRange clock (k + 1) rs

/-! ### Derived views of the index builder -/

/-- What one detail row contributes to the index: `(item, owner, account)`,
or nothing — mirrors the guards of `idxStep` (nonempty invoice number,
parent mapped by the header pass, nonempty item code). -/
def rowContrib (invMap : List (String × (String × String))) (r : Row) :
    Option (String × String × String) :=
  if cleanStr (ciGet3 r "InvoiceNo" "InvoiceNumber" "Invoice") = "" then none
  else
    match alFind invMap (cleanStr (ciGet3 r "InvoiceNo" "InvoiceNumber" "Invoice")) with
    | none => none
    | some hdr =>
      if itemCodeOf r = "" then none
      else some (itemCodeOf r, hdr.2, hdr.1)

/-- The composite index key a contribution is stored under. -/
def contribKeyOf (t : String × String × String) : String := t.1 ++ "__" ++ t.2.1

/-- All contributions of a detail file, in file order. -/
def idxContribs (invMap : List (String × (String × String))) (rows : List Row) :
    List (String × String × String) :=
  rows.filterMap (rowContrib invMap)

/-- The contributions of one exact `(item, owner)` pair. -/
def pairContribs (invMap : List (String × (String × String))) (rows : List Row)
    (item sp : String) : List (String × String × String) :=
  (idxContribs invMap rows).filter (fun t => t.1 = item ∧ t.2.1 = sp)

/-- The index writes of one full index-builder run. -/
def indexRunWrites (cutoff clock : ℤ) (yearsBack : ℚ) (hh hd : List Row) : List Write :=
  indexWrites clock yearsBack (idxRun (invMapRun cutoff hh) hd)

/-- Invariant of the in-memory index relative to a characterization `C` of
the contributions per key: keys are unique; absent keys have no
contributions; a present entry is keyed consistently with its stored pair,
its stored pair is one of the key's contributing pairs, and its customer
set holds exactly the key's contributing accounts, without duplicates. -/
def IdxGood (idx : List (String × IdxEntry))
    (C : String → List (String × String × String)) : Prop :=
  ((idx.map Prod.fst).Nodup) ∧
  ∀ key : String,
    (alFind idx key = none → C key = []) ∧
    (∀ e, alFind idx key = some e →
      e.itemCode ++ "__" ++ e.salespersonNo = key ∧
      (∃ t ∈ C key, t.1 = e.itemCode ∧ t.2.1 = e.salespersonNo) ∧
      e.customers.Nodup ∧
      (∀ c, c ∈ e.customers ↔ ∃ t ∈ C key, t.2.2 = c))

/-! ### Concrete inputs used by witnesses and counterexamples -/

/-- Witness input for the index builder: one in-window invoice for account
`CUSTA` under owner `0007`. -/
def c5HH : List Row :=
  [[("InvoiceNo", "INV1"), ("InvoiceDate", "01/01/2024"),
    ("CustomerNo", "CUSTA"), ("SalespersonNo", "0007")]]

/-- Witness detail file: one line of item `A` on `INV1`. -/
def c5HD : List Row := [[("InvoiceNo", "INV1"), ("ItemCode", "A")]]

/-- Collision input: owner `000C` buys item `A__B`; owner `B__000C` buys
item `A`.  Both land on composite key `A__B__000C`. -/
def c5xHH : List Row :=
  [[("InvoiceNo", "INV1"), ("InvoiceDate", "01/01/2024"),
    ("CustomerNo", "CUSTA"), ("SalespersonNo", "000C")],
   [("InvoiceNo", "INV2"), ("InvoiceDate", "01/01/2024"),
    ("CustomerNo", "CUSTB"), ("SalespersonNo", "B__000C")]]

/-- Collision detail file. -/
def c5xHD : List Row :=
  [[("InvoiceNo", "INV1"), ("ItemCode", "A__B")],
   [("InvoiceNo", "INV2"), ("ItemCode", "A")]]

/-- Witness header file: one in-window invoice. -/
def c3HH : List Row := [[("InvoiceNo", "INV1"), ("InvoiceDate", "01/01/2024")]]

/-- Witness detail file: two lines for `INV1`, amounts `10.50` and
`"$25,00"`. -/
def c3HD : List Row :=
  [[("InvoiceNo", "INV1"), ("ItemCode", "A"), ("ExtensionAmt", "10.50")],
   [("InvoiceNo", "INV1"), ("ItemCode", "B"), ("ExtensionAmt", "$25,00")]]

/-- Witness header file for the window gate. -/
def c2HH : List Row := [[("InvoiceNo", "INV1"), ("InvoiceDate", "01/01/2024")]]

/-- Witness detail file for the window gate. -/
def c2HD : List Row := [[("InvoiceNo", "INV1"), ("ItemCode", "X")]]

/-- A header dated far in the future (year 9999). -/
def c2FutureHH : List Row := [[("InvoiceNo", "INV1"), ("InvoiceDate", "01/01/9999")]]

/-- A detail row for the future-dated header. -/
def c2FutureHD : List Row := [[("InvoiceNo", "INV1"), ("ItemCode", "X")]]

/-- Six tier-D customer docs for the negative-`oppCount` counterexample. -/
def c10Docs : List CustDoc :=
  [{ id := "C1", udf25TotalSales := some "0" },
   { id := "C2", udf25TotalSales := some "0" },
   { id := "C3", udf25TotalSales := some "0" },
   { id := "C4", udf25TotalSales := some "0" },
   { id := "C5", udf25TotalSales := some "0" },
   { id := "C6", udf25TotalSales := some "0" }]

/-- Two header rows that both lack an invoice number. -/
def c9RowsA : List Row := [[("Foo", "1")], [("Foo", "2")]]

/-- One header row lacking an invoice number and one with an out-of-window
date. -/
def c9RowsB : List Row :=
  [[("Foo", "1")], [("InvoiceNo", "INV1"), ("InvoiceDate", "01/01/1990")]]

/-! ### Helper lemmas -/

theorem alFind_alSet_self {α : Type} (m : List (String × α)) (k : String) (v : α) :
    alFind (alSet m k v) k = some v := by
  induction m with
  | nil => simp [alSet, alFind]
  | cons p m ih =>
    by_cases hp : p.1 = k
    · simp [alSet, alFind, hp]
    · simp [alSet, alFind, hp, ih]

theorem alFind_alSet_ne {α : Type} (m : List (String × α)) (k k' : String) (v : α)
    (hne : k' ≠ k) : alFind (alSet m k v) k' = alFind m k' := by
  induction m with
  | nil =>
    simp only [alSet, alFind]
    rw [if_neg (fun h => hne h.symm)]
  | cons p m ih =>
    by_cases hp : p.1 = k
    · simp only [alSet, if_pos hp, alFind]
      rw [if_neg (fun h => hne h.symm), if_neg (fun h : p.1 = k' => hne ((hp ▸ h : k = k')).symm)]
    · simp only [alSet, if_neg hp, alFind]
      by_cases hp' : p.1 = k'
      · rw [if_pos hp', if_pos hp']
      · rw [if_neg hp', if_neg hp', ih]

theorem mem_keys_alSet {α : Type} (m : List (String × α)) (k x : String) (v : α) :
    x ∈ (alSet m k v).map Prod.fst ↔ x ∈ m.map Prod.fst ∨ x = k := by
  induction m with
  | nil => simp [alSet]
  | cons p m ih =>
    by_cases hp : p.1 = k
    · rw [show alSet (p :: m) k v = (k, v) :: m by simp [alSet, hp]]
      simp only [List.map_cons, List.mem_cons, hp]
      tauto
    · rw [show alSet (p :: m) k v = p :: alSet m k v by simp [alSet, hp]]
      simp only [List.map_cons, List.mem_cons, ih]
      tauto

theorem nodupKeys_alSet {α : Type} (m : List (String × α)) (k : String) (v : α)
    (h : (m.map Prod.fst).Nodup) : ((alSet m k v).map Prod.fst).Nodup := by
  induction m with
  | nil => simp [alSet]
  | cons p m ih =>
    simp only [List.map_cons, List.nodup_cons] at h
    by_cases hp : p.1 = k
    · simp only [alSet, if_pos hp, List.map_cons, List.nodup_cons]
      exact ⟨hp ▸ h.1, h.2⟩
    · simp only [alSet, if_neg hp, List.map_cons, List.nodup_cons]
      refine ⟨fun hin => ?_, ih h.2⟩
      rcases (mem_keys_alSet m k p.1 v).mp hin with h1 | h1
      · exact h.1 h1
      · exact hp h1

theorem mem_of_alFind_eq_some {α : Type} (m : List (String × α)) (k : String) (v : α)
    (h : alFind m k = some v) : (k, v) ∈ m := by
  induction m with
  | nil => simp [alFind] at h
  | cons p m ih =>
    by_cases hp : p.1 = k
    · rw [show alFind (p :: m) k = some p.2 by simp [alFind, hp]] at h
      have hpv : (k, v) = p := by
        obtain ⟨p1, p2⟩ := p
        simp only [Option.some.injEq] at h
        simp only at hp
        rw [hp, h]
      rw [hpv]
      exact List.mem_cons_self p m
    · rw [show alFind (p :: m) k = alFind m k by simp [alFind, hp]] at h
      exact List.mem_cons_of_mem _ (ih h)

theorem alFind_eq_none_of_not_mem_keys {α : Type} (m : List (String × α)) (k : String)
    (h : k ∉ m.map Prod.fst) : alFind m k = none := by
  induction m with
  | nil => simp [alFind]
  | cons p m ih =>
    simp only [List.map_cons, List.mem_cons] at h
    push_neg at h
    rw [show alFind (p :: m) k = alFind m k by
      simp only [alFind]
      rw [if_neg (fun hp : p.1 = k => h.1 hp.symm)]]
    exact ih h.2

/-- With duplicate-free keys, an association-list member is the unique entry
returned for its key. -/
theorem filter_key_of_nodupKeys {α : Type} [DecidableEq α] (m : List (String × α))
    (k : String) (v : α) (hnd : (m.map Prod.fst).Nodup) (hmem : (k, v) ∈ m) :
    m.filter (fun p => p.1 = k) = [(k, v)] := by
  induction m with
  | nil => simp at hmem
  | cons p m ih =>
    simp only [List.map_cons, List.nodup_cons] at hnd
    rcases List.mem_cons.mp hmem with h1 | h1
    · have hnil : m.filter (fun p => p.1 = k) = [] := by
        apply List.filter_eq_nil_iff.mpr
        intro q hq
        simp only [decide_eq_true_eq]
        intro hqk
        apply hnd.1
        have hin : q.1 ∈ m.map Prod.fst := List.mem_map_of_mem Prod.fst hq
        rw [hqk] at hin
        rw [← h1]
        exact hin
      rw [← h1]
      simp [List.filter_cons, hnil]
    · have hpk : ¬ p.1 = k := by
        intro hpk
        apply hnd.1
        rw [hpk]
        exact (List.mem_map_of_mem Prod.fst h1 : (k, v).1 ∈ m.map Prod.fst)
      simp only [List.filter_cons, decide_eq_true_eq]
      rw [if_neg hpk]
      exact ih hnd.2 h1

/-- Membership in the result of `setAdd`. -/
theorem mem_setAdd (l : List String) (x y : String) :
    y ∈ setAdd l x ↔ y ∈ l ∨ y = x := by
  unfold setAdd
  split
  next h =>
    constructor
    · exact fun hy => Or.inl hy
    · rintro (hy | rfl)
      · exact hy
      · exact h
  next h => simp

theorem nodup_setAdd (l : List String) (x : String) (h : l.Nodup) :
    (setAdd l x).Nodup := by
  unfold setAdd
  split
  next => exact h
  next hx => simpa [List.nodup_append] using ⟨h, hx⟩

theorem foldl_mergeDoc_lookup (ps : List Doc) (d0 : StoredDoc) (f : String) :
    (ps.foldl mergeDoc d0) f =
      match lastSet ps f with
      | some v => some v
      | none => d0 f := by
  induction ps generalizing d0 with
  | nil => simp [lastSet]
  | cons p ps ih =>
    simp only [List.foldl]
    rw [ih]
    simp only [lastSet]
    rcases hls : lastSet ps f with _ | v
    · simp [mergeDoc]
    · rfl

theorem applyWrites_eq_mergeList (s : Store) (ws : List Write) (q : DocPath) :
    applyWrites s ws q = mergeList (s q) (payloadsFor ws q) := by
  induction ws generalizing s with
  | nil => simp [applyWrites, payloadsFor, mergeList]
  | cons w ws ih =>
    simp only [applyWrites, List.foldl] at *
    rw [ih]
    by_cases hq : q = w.path
    · have hfil : payloadsFor (w :: ws) q = w.payload :: payloadsFor ws q := by
        simp [payloadsFor, List.filter, hq.symm, decide_eq_true_eq]
      rw [hfil]
      have happ : applyWrite s w q =
          some (mergeDoc (fun f => match s q with | some d => d f | none => none) w.payload) := by
        simp [applyWrite, hq]
      rw [happ]
      rcases hps : payloadsFor ws q with _ | ⟨p, ps⟩
      · simp [mergeList]
      · simp only [mergeList]
        congr 1
    · have hfil : payloadsFor (w :: ws) q = payloadsFor ws q := by
        simp [payloadsFor, List.filter, show ¬ (w.path = q) from fun h => hq h.symm]
      rw [hfil]
      have happ : applyWrite s w q = s q := by
        simp [applyWrite, hq]
      rw [happ]

/-- Merge-upsert absorption: merging the same payload list twice gives the
same stored document as merging it once. -/
theorem mergeList_idem (d : Option StoredDoc) (ps : List Doc) :
    mergeList (mergeList d ps) ps = mergeList d ps := by
  rcases hps : ps with _ | ⟨p, ps'⟩
  · simp [mergeList]
  · simp only [mergeList]
    congr 1
    funext f
    rw [foldl_mergeDoc_lookup, foldl_mergeDoc_lookup]
    rcases hls : lastSet (p :: ps') f with _ | v
    · simp [foldl_mergeDoc_lookup, hls]
    · simp

/-- Replaying any batch of merge-upserts is a no-op on the store. -/
theorem applyWrites_idem (s : Store) (ws : List Write) :
    applyWrites (applyWrites s ws) ws = applyWrites s ws := by
  funext q
  rw [applyWrites_eq_mergeList, applyWrites_eq_mergeList, mergeList_idem]

theorem commitWithRetry_unfold (f : ℕ → Option String) (a : ℕ) :
    commitWithRetry f a =
      match f a with
      | none => (none, [])
      | some msg =>
        if a ≤ 6 ∧ isTransientMsg msg = true then
          ((commitWithRetry f (a + 1)).1, 250 * a * a :: (commitWithRetry f (a + 1)).2)
        else (some msg, []) := by
  conv_lhs => unfold commitWithRetry
  rcases h : f a with _ | m
  · rfl
  · dsimp only
    split_ifs with hc
    · rfl
    · rfl

theorem header16RunAux_counts (cutoff clock : ℤ) :
    ∀ (rows : List Row) (st : HeaderResult16) (i : ℕ),
      (header16RunAux cutoff clock st i rows).skipped =
        st.skipped + (specMissingKeyCount16 rows + specOutOfWindowCount16 cutoff rows) ∧
      (header16RunAux cutoff clock st i rows).written +
          (header16RunAux cutoff clock st i rows).skipped =
        st.written + st.skipped + rows.length := by
  intro rows
  induction rows with
  | nil =>
    intro st i
    simp [header16RunAux, specMissingKeyCount16, specOutOfWindowCount16]
  | cons r rs ih =>
    intro st i
    simp only [header16RunAux]
    by_cases hk : cleanStr (ciGet3 r "InvoiceNo" "InvoiceNumber" "Invoice") = ""
    · have hstep : header16Step cutoff clock st r i = { st with skipped := st.skipped + 1 } := by
        unfold header16Step
        rw [if_pos hk]
      have hmc : specMissingKeyCount16 (r :: rs) = specMissingKeyCount16 rs + 1 := by
        simp [specMissingKeyCount16, List.countP_cons, hk]
      have hoc : specOutOfWindowCount16 cutoff (r :: rs) = specOutOfWindowCount16 cutoff rs := by
        simp [specOutOfWindowCount16, List.countP_cons, hk]
      rw [hstep]
      obtain ⟨ih1, ih2⟩ := ih { st with skipped := st.skipped + 1 } (i + 1)
      refine ⟨?_, ?_⟩
      · rw [ih1, hmc, hoc]
        dsimp only
        omega
      · rw [ih2]
        dsimp only
        rw [List.length_cons]
        omega
    · rcases hdte : parseUSDate (some (cleanStr ((ciGet r "InvoiceDate").or (ciGet r "Date"))))
        with _ | dv
      · have hstep : header16Step cutoff clock st r i =
            { st with skipped := st.skipped + 1 } := by
          unfold header16Step
          rw [if_neg hk, hdte]
        have hmc : specMissingKeyCount16 (r :: rs) = specMissingKeyCount16 rs := by
          simp [specMissingKeyCount16, List.countP_cons, hk]
        have hoc : specOutOfWindowCount16 cutoff (r :: rs) =
            specOutOfWindowCount16 cutoff rs + 1 := by
          simp [specOutOfWindowCount16, List.countP_cons, hk, hdte]
        rw [hstep]
        obtain ⟨ih1, ih2⟩ := ih { st with skipped := st.skipped + 1 } (i + 1)
        refine ⟨?_, ?_⟩
        · rw [ih1, hmc, hoc]
          dsimp only
          omega
        · rw [ih2]
          dsimp only
          rw [List.length_cons]
          omega
      · by_cases hlt : dv < cutoff
        · have hstep : header16Step cutoff clock st r i =
              { st with skipped := st.skipped + 1 } := by
            unfold header16Step
            rw [if_neg hk, hdte]
            dsimp only
            rw [if_pos hlt]
          have hmc : specMissingKeyCount16 (r :: rs) = specMissingKeyCount16 rs := by
            simp [specMissingKeyCount16, List.countP_cons, hk]
          have hoc : specOutOfWindowCount16 cutoff (r :: rs) =
              specOutOfWindowCount16 cutoff rs + 1 := by
            simp [specOutOfWindowCount16, List.countP_cons, hk, hdte, hlt]
          rw [hstep]
          obtain ⟨ih1, ih2⟩ := ih { st with skipped := st.skipped + 1 } (i + 1)
          refine ⟨?_, ?_⟩
          · rw [ih1, hmc, hoc]
            dsimp only
            omega
          · rw [ih2]
            dsimp only
            rw [List.length_cons]
            omega
        · have hstep : header16Step cutoff clock st r i =
              { written := st.written + 1
                skipped := st.skipped
                inRange := setAdd st.inRange
                  (cleanStr (ciGet3 r "InvoiceNo" "InvoiceNumber" "Invoice"))
                writes := st.writes ++
                  [{ path := DocPath.invoice (normalizeDocId
                       (some (cleanStr (ciGet3 r "InvoiceNo" "InvoiceNumber" "Invoice"))))
                     payload := headerPayload16 clock r
                       (cleanStr (ciGet3 r "InvoiceNo" "InvoiceNumber" "Invoice")) dv
                       (i + 1) }] } := by
            unfold header16Step
            rw [if_neg hk, hdte]
            dsimp only
            rw [if_neg hlt]
          have hmc : specMissingKeyCount16 (r :: rs) = specMissingKeyCount16 rs := by
            simp [specMissingKeyCount16, List.countP_cons, hk]
          have hoc : specOutOfWindowCount16 cutoff (r :: rs) =
              specOutOfWindowCount16 cutoff rs := by
            simp [specOutOfWindowCount16, List.countP_cons, hk, hdte, hlt]
          rw [hstep]
          obtain ⟨ih1, ih2⟩ := ih _ (i + 1)
          refine ⟨?_, ?_⟩
          · rw [ih1, hmc, hoc]
          · rw [ih2]
            dsimp only
            rw [List.length_cons]
            omega

theorem lineStep17_eq (inRange : List String) (clock : ℤ) (st : DetailState17) (r : Row)
    (i : ℕ) :
    lineStep17 inRange clock st r i =
      if lineKept inRange r = true then
        { merchTotals := alSet st.merchTotals (cleanStr (ciGet r "InvoiceNo"))
            (((alFind st.merchTotals (cleanStr (ciGet r "InvoiceNo"))).getD 0) +
              parseNumber (ciGet r "ExtensionAmt"))
          writes := st.writes ++ [lineWriteOf clock r i] }
      else st := by
  unfold lineStep17 lineKept lineWriteOf
  by_cases h0 : r = []
  · simp [h0]
  · by_cases h1 : cleanStr (ciGet r "InvoiceNo") = "" ∨ cleanStr (ciGet r "InvoiceNo") ∉ inRange
    · simp [h0, h1]
    · by_cases h2 : cleanStr (ciGet r "ItemCode") = "" ∧ cleanStr (ciGet r "ItemCodeDesc") = ""
      · simp [h0, h1, h2]
      · simp [h0, h1, h2]

theorem headerStep17_eq (cutoff clock : ℤ) (st : HeaderState17) (r : Row) (i : ℕ) :
    headerStep17 cutoff clock st r i =
      if headKept cutoff r = true then
        { inRange := setAdd st.inRange (cleanStr (ciGet r "InvoiceNo"))
          freight := alSet st.freight (cleanStr (ciGet r "InvoiceNo"))
            (parseNumber (ciGet r "FreightAmt"))
          discount := alSet st.discount (cleanStr (ciGet r "InvoiceNo"))
            (parseNumber (ciGet r "DiscountAmt"))
          writes := st.writes ++ [headerWriteOf17 clock r i] }
      else st := by
  unfold headerStep17 headKept headerWriteOf17
  by_cases h0 : r = []
  · simp [h0]
  · by_cases h1 : cleanStr (ciGet r "InvoiceNo") = ""
    · simp [h0, h1]
    · rcases hdte : parseUSDate (some (cleanStr ((ciGet r "InvoiceDate").or (ciGet r "Date"))))
        with _ | dv
      · simp [h0, h1, hdte]
      · by_cases hlt : dv < cutoff
        · simp [h0, h1, hdte, hlt]
        · simp [h0, h1, hdte, hlt]

theorem headerRun17Aux_inRange (cutoff clock : ℤ) :
    ∀ (rows : List Row) (st : HeaderState17) (k : ℕ) (inv : String),
      inv ∈ (headerRun17Aux cutoff clock st k rows).inRange ↔
        inv ∈ st.inRange ∨
          ∃ r ∈ rows, headKept cutoff r = true ∧ cleanStr (ciGet r "InvoiceNo") = inv := by
  intro rows
  induction rows with
  | nil =>
    intro st k inv
    simp [headerRun17Aux]
  | cons r rs ih =>
    intro st k inv
    simp only [headerRun17Aux]
    rw [ih, headerStep17_eq]
    by_cases hk : headKept cutoff r = true
    · rw [if_pos hk]
      dsimp only
      rw [mem_setAdd]
      constructor
      · rintro ((hst | hr) | hrs)
        · exact Or.inl hst
        · exact Or.inr ⟨r, List.mem_cons_self r rs, hk, hr.symm⟩
        · obtain ⟨r', hr', hkept, hinv⟩ := hrs
          exact Or.inr ⟨r', List.mem_cons_of_mem r hr', hkept, hinv⟩
      · rintro (hst | ⟨r', hr', hkept, hinv⟩)
        · exact Or.inl (Or.inl hst)
        · rcases List.mem_cons.mp hr' with rfl | hr'
          · exact Or.inl (Or.inr hinv.symm)
          · exact Or.inr ⟨r', hr', hkept, hinv⟩
    · rw [if_neg hk]
      constructor
      · rintro (hst | ⟨r', hr', hkept, hinv⟩)
        · exact Or.inl hst
        · exact Or.inr ⟨r', List.mem_cons_of_mem r hr', hkept, hinv⟩
      · rintro (hst | ⟨r', hr', hkept, hinv⟩)
        · exact Or.inl hst
        · rcases List.mem_cons.mp hr' with rfl | hr'
          · exact absurd hkept hk
          · exact Or.inr ⟨r', hr', hkept, hinv⟩

theorem detailRun17Aux_writes (inRange : List String) (clock : ℤ) :
    ∀ (rows : List Row) (st : DetailState17) (k : ℕ),
      (detailRun17Aux inRange clock st k rows).writes =
        st.writes ++ lineWritesFrom inRange clock k rows := by
  intro rows
  induction rows with
  | nil =>
    intro st k
    simp [detailRun17Aux, lineWritesFrom]
  | cons r rs ih =>
    intro st k
    simp only [detailRun17Aux, lineWritesFrom]
    rw [ih, lineStep17_eq]
    by_cases hk : lineKept inRange r = true
    · rw [if_pos hk, if_pos hk]
      simp [List.append_assoc]
    · rw [if_neg hk, if_neg hk]
      simp

theorem wSrcIdx_lineWriteOf (clock : ℤ) (r : Row) (i : ℕ) :
    wSrcIdx (lineWriteOf clock r i) = some i := rfl

theorem lineWritesFrom_idx_pos (inRange : List String) (clock : ℤ) :
    ∀ (rows : List Row) (k : ℕ) (w : Write), w ∈ lineWritesFrom inRange clock k rows →
      ∃ j, wSrcIdx w = some j ∧ k < j := by
  intro rows
  induction rows with
  | nil =>
    intro k w hw
    simp [lineWritesFrom] at hw
  | cons r rs ih =>
    intro k w hw
    simp only [lineWritesFrom, List.mem_append] at hw
    rcases hw with hw | hw
    · by_cases hk : lineKept inRange r = true
      · rw [if_pos hk] at hw
        simp only [List.mem_singleton] at hw
        exact ⟨k + 1, hw ▸ wSrcIdx_lineWriteOf clock r (k + 1), by omega⟩
      · rw [if_neg hk] at hw
        simp at hw
    · obtain ⟨j, hj, hjk⟩ := ih (k + 1) w hw
      exact ⟨j, hj, by omega⟩

theorem countP_lineWritesFrom (inRange : List String) (clock : ℤ) :
    ∀ (rows : List Row) (k i : ℕ) (hi : i < rows.length),
      (lineWritesFrom inRange clock k rows).countP
          (fun w => wSrcIdx w == some (k + i + 1)) =
        if lineKept inRange (rows.get ⟨i, hi⟩) = true then 1 else 0 := by
  intro rows
  induction rows with
  | nil =>
    intro k i hi
    simp at hi
  | cons r rs ih =>
    intro k i hi
    simp only [lineWritesFrom]
    rw [List.countP_append]
    rcases i with _ | i
    · have htail : (lineWritesFrom inRange clock (k + 1) rs).countP
          (fun w => wSrcIdx w == some (k + 0 + 1)) = 0 := by
        rw [List.countP_eq_zero]
        intro w hw
        obtain ⟨j, hj, hjk⟩ := lineWritesFrom_idx_pos inRange clock rs (k + 1) w hw
        simp only [hj, beq_iff_eq, Option.some.injEq]
        omega
      rw [htail]
      have hget : (r :: rs).get ⟨0, hi⟩ = r := rfl
      rw [hget]
      by_cases hk : lineKept inRange r = true
      · rw [if_pos hk, if_pos hk]
        simp [List.countP_cons, wSrcIdx_lineWriteOf]
      · rw [if_neg hk, if_neg hk]
        simp
    · have hhead : (if lineKept inRange r = true then [lineWriteOf clock r (k + 1)]
          else []).countP (fun w => wSrcIdx w == some (k + (i + 1) + 1)) = 0 := by
        by_cases hk : lineKept inRange r = true
        · rw [if_pos hk]
          simp only [List.countP_cons, List.countP_nil, wSrcIdx_lineWriteOf, beq_iff_eq,
            Option.some.injEq]
          rw [if_neg (by omega)]
        · rw [if_neg hk]
          simp
      rw [hhead]
      have hlt : i < rs.length := by simpa using hi
      have hget : (r :: rs).get ⟨i + 1, hi⟩ = rs.get ⟨i, hlt⟩ := rfl
      rw [hget]
      have hih := ih (k + 1) i hlt
      rw [show k + (i + 1) + 1 = (k + 1) + i + 1 by omega, hih]
      simp

theorem detailRun17Aux_merch (inRange : List String) (clock : ℤ) :
    ∀ (rows : List Row) (st : DetailState17) (k : ℕ) (inv : String),
      alFind (detailRun17Aux inRange clock st k rows).merchTotals inv =
        if lineContribs inRange inv rows = [] then alFind st.merchTotals inv
        else some ((alFind st.merchTotals inv).getD 0 +
          (lineContribs inRange inv rows).sum) := by
  intro rows
  induction rows with
  | nil =>
    intro st k inv
    simp [detailRun17Aux, lineContribs]
  | cons r rs ih =>
    intro st k inv
    simp only [detailRun17Aux]
    rw [ih, lineStep17_eq]
    by_cases hk : lineKept inRange r = true
    · by_cases hinv : cleanStr (ciGet r "InvoiceNo") = inv
      · rw [if_pos hk]
        have hcon : lineContribs inRange inv (r :: rs) =
            parseNumber (ciGet r "ExtensionAmt") :: lineContribs inRange inv rs := by
          simp [lineContribs, List.filterMap_cons, hk, hinv]
        rw [hcon]
        dsimp only
        rw [hinv, alFind_alSet_self]
        by_cases hrs : lineContribs inRange inv rs = []
        · rw [if_pos hrs, if_neg (by simp [hrs])]
          simp [hrs]
        · rw [if_neg hrs, if_neg (by simp)]
          simp only [Option.getD_some, List.sum_cons]
          congr 1
          ring
      · rw [if_pos hk]
        have hcon : lineContribs inRange inv (r :: rs) = lineContribs inRange inv rs := by
          simp [lineContribs, List.filterMap_cons, hk, hinv]
        rw [hcon]
        dsimp only
        rw [alFind_alSet_ne _ _ _ _ (fun h => hinv h.symm)]
    · rw [if_neg hk]
      have hcon : lineContribs inRange inv (r :: rs) = lineContribs inRange inv rs := by
        simp [lineContribs, List.filterMap_cons, hk]
      rw [hcon]

theorem alFind_of_mem_nodupKeys {α : Type} (m : List (String × α)) (k : String) (v : α)
    (hnd : (m.map Prod.fst).Nodup) (hmem : (k, v) ∈ m) : alFind m k = some v := by
  induction m with
  | nil => simp at hmem
  | cons p m ih =>
    simp only [List.map_cons, List.nodup_cons] at hnd
    rcases List.mem_cons.mp hmem with h1 | h1
    · rw [← h1]
      simp [alFind]
    · have hpk : ¬ p.1 = k := by
        intro hpk
        apply hnd.1
        rw [hpk]
        exact (List.mem_map_of_mem Prod.fst h1 : (k, v).1 ∈ m.map Prod.fst)
      simp only [alFind, if_neg hpk]
      exact ih hnd.2 h1

theorem idxStep_eq (invMap : List (String × (String × String)))
    (idx : List (String × IdxEntry)) (r : Row) :
    idxStep invMap idx r =
      match rowContrib invMap r with
      | none => idx
      | some t =>
        alSet idx (contribKeyOf t)
          { itemCode := ((alFind idx (contribKeyOf t)).getD ⟨t.1, t.2.1, []⟩).itemCode
            salespersonNo :=
              ((alFind idx (contribKeyOf t)).getD ⟨t.1, t.2.1, []⟩).salespersonNo
            customers :=
              setAdd ((alFind idx (contribKeyOf t)).getD ⟨t.1, t.2.1, []⟩).customers
                t.2.2 } := by
  unfold idxStep rowContrib contribKeyOf
  by_cases h0 : cleanStr (ciGet3 r "InvoiceNo" "InvoiceNumber" "Invoice") = ""
  · simp [h0]
  · rw [if_neg h0, if_neg h0]
    rcases hmap : alFind invMap (cleanStr (ciGet3 r "InvoiceNo" "InvoiceNumber" "Invoice"))
      with _ | hdr
    · rfl
    · dsimp only
      by_cases h1 : itemCodeOf r = ""
      · simp [h1]
      · simp [h1]

theorem IdxGood_congr (idx : List (String × IdxEntry))
    (C C' : String → List (String × String × String))
    (h : IdxGood idx C) (he : ∀ key, C key = C' key) : IdxGood idx C' := by
  obtain ⟨hnd, hkey⟩ := h
  refine ⟨hnd, fun key => ⟨fun hn => ?_, fun e hsome => ?_⟩⟩
  · rw [← he key]
    exact (hkey key).1 hn
  · obtain ⟨hck, hpair, hnodup, hmem⟩ := (hkey key).2 e hsome
    rw [he key] at hpair
    refine ⟨hck, hpair, hnodup, fun c => ?_⟩
    rw [← he key]
    exact hmem c

theorem IdxGood_step (invMap : List (String × (String × String)))
    (idx : List (String × IdxEntry)) (r : Row)
    (C : String → List (String × String × String)) (h : IdxGood idx C) :
    IdxGood (idxStep invMap idx r)
      (fun key => C key ++ ((rowContrib invMap r).toList.filter
        (fun t => contribKeyOf t = key))) := by
  obtain ⟨hnd, hkey⟩ := h
  rw [idxStep_eq]
  rcases hc : rowContrib invMap r with _ | t
  · dsimp only
    refine ⟨hnd, fun key => ⟨fun hn => ?_, fun e hsome => ?_⟩⟩
    · simp [Option.toList, (hkey key).1 hn]
    · obtain ⟨hck, ⟨t1, ht1, hpair⟩, hnodup, hmem⟩ := (hkey key).2 e hsome
      refine ⟨hck, ⟨t1, by simp [Option.toList, ht1], hpair⟩, hnodup, fun c => ?_⟩
      rw [hmem c]
      simp [Option.toList]
  · dsimp only
    refine ⟨nodupKeys_alSet idx (contribKeyOf t) _ hnd, fun key => ⟨fun hn => ?_, ?_⟩⟩
    · by_cases hkk : key = contribKeyOf t
      · rw [hkk, alFind_alSet_self] at hn
        cases hn
      · rw [alFind_alSet_ne _ _ _ _ hkk] at hn
        dsimp only
        rw [(hkey key).1 hn]
        simp only [Option.toList, List.nil_append]
        rw [List.filter_eq_nil_iff]
        intro a ha
        simp only [List.mem_singleton] at ha
        subst ha
        simp only [decide_eq_true_eq]
        exact fun h => hkk h.symm
    · intro e hsome
      by_cases hkk : key = contribKeyOf t
      · subst hkk
        rw [alFind_alSet_self] at hsome
        have he : e = { itemCode := ((alFind idx (contribKeyOf t)).getD ⟨t.1, t.2.1, []⟩).itemCode
                        salespersonNo :=
                          ((alFind idx (contribKeyOf t)).getD ⟨t.1, t.2.1, []⟩).salespersonNo
                        customers :=
                          setAdd ((alFind idx (contribKeyOf t)).getD ⟨t.1, t.2.1, []⟩).customers
                            t.2.2 } := (Option.some.inj hsome).symm
      -- the filtered singleton keeps `t`
        have hfil : (Option.toList (some t)).filter
            (fun x => contribKeyOf x = contribKeyOf t) = [t] := by
          simp [Option.toList]
        rcases hold : alFind idx (contribKeyOf t) with _ | e0
        · have hC : C (contribKeyOf t) = [] := (hkey (contribKeyOf t)).1 hold
          rw [he]
          rw [hold]
          refine ⟨rfl, ⟨t, ?_, rfl, rfl⟩, ?_, fun c => ?_⟩
          · dsimp only
            rw [hC, hfil]
            simp
          · simp [Option.getD, setAdd]
          · dsimp only
            rw [hC, hfil]
            simp [Option.getD, setAdd, eq_comm]
        · obtain ⟨hck0, ⟨t1, ht1, hpair0⟩, hnodup0, hmem0⟩ :=
            (hkey (contribKeyOf t)).2 e0 hold
          rw [he, hold]
          refine ⟨by simpa using hck0, ⟨t1, ?_, by simpa using hpair0⟩, ?_, fun c => ?_⟩
          · dsimp only
            rw [hfil]
            exact List.mem_append_left _ ht1
          · exact nodup_setAdd _ _ (by simpa using hnodup0)
          · dsimp only
            rw [hfil]
            simp only [Option.getD_some]
            rw [mem_setAdd]
            constructor
            · rintro (hc1 | rfl)
              · obtain ⟨t2, ht2, hc2⟩ := (hmem0 c).mp hc1
                exact ⟨t2, List.mem_append_left _ ht2, hc2⟩
              · exact ⟨t, List.mem_append_right _ (by simp), rfl⟩
            · rintro ⟨t2, ht2, hc2⟩
              rcases List.mem_append.mp ht2 with ht2 | ht2
              · exact Or.inl ((hmem0 c).mpr ⟨t2, ht2, hc2⟩)
              · simp only [List.mem_singleton] at ht2
                subst ht2
                exact Or.inr hc2.symm
      · rw [alFind_alSet_ne _ _ _ _ hkk] at hsome
        obtain ⟨hck, ⟨t1, ht1, hpair⟩, hnodup, hmem⟩ := (hkey key).2 e hsome
        have hfil : (Option.toList (some t)).filter (fun x => contribKeyOf x = key) = [] := by
          simp only [Option.toList]
          rw [List.filter_eq_nil_iff]
          intro a ha
          simp only [List.mem_singleton] at ha
          subst ha
          simp only [decide_eq_true_eq]
          exact fun h => hkk h.symm
        refine ⟨hck, ⟨t1, by dsimp only; exact List.mem_append_left _ ht1, hpair⟩, hnodup,
          fun c => ?_⟩
        dsimp only
        rw [hmem c, hfil]
        simp

theorem idxRun_fold_good (invMap : List (String × (String × String))) :
    ∀ (rows : List Row) (idx : List (String × IdxEntry))
      (C : String → List (String × String × String)), IdxGood idx C →
      IdxGood (rows.foldl (idxStep invMap) idx)
        (fun key => C key ++ ((idxContribs invMap rows).filter
          (fun t => contribKeyOf t = key))) := by
  intro rows
  induction rows with
  | nil =>
    intro idx C h
    refine IdxGood_congr idx C _ h fun key => ?_
    simp [idxContribs]
  | cons r rs ih =>
    intro idx C h
    simp only [List.foldl]
    have hstep := IdxGood_step invMap idx r C h
    have hfold := ih (idxStep invMap idx r) _ hstep
    refine IdxGood_congr _ _ _ hfold fun key => ?_
    simp only [idxContribs, List.filterMap_cons]
    rcases hc : rowContrib invMap r with _ | t
    · simp [Option.toList]
    · simp only [Option.toList, List.filter_cons, List.filter_nil, List.append_assoc]
      split_ifs <;> simp

theorem idxRun_good (invMap : List (String × (String × String))) (rows : List Row) :
    IdxGood (idxRun invMap rows)
      (fun key => (idxContribs invMap rows).filter (fun t => contribKeyOf t = key)) := by
  have h0 : IdxGood ([] : List (String × IdxEntry)) (fun _ => []) := by
    refine ⟨List.nodup_nil, fun key => ⟨fun _ => rfl, fun e hsome => ?_⟩⟩
    simp [alFind] at hsome
  have := idxRun_fold_good invMap rows [] (fun _ => []) h0
  exact IdxGood_congr _ _ _ this fun key => by simp [idxRun]

theorem lookupField_indexPayload_item (clock : ℤ) (yb : ℚ) (e : IdxEntry) :
    lookupField (indexPayload clock yb e) "itemCode" = some (Val.s e.itemCode) := rfl

theorem lookupField_indexPayload_sp (clock : ℤ) (yb : ℚ) (e : IdxEntry) :
    lookupField (indexPayload clock yb e) "salespersonNo" =
      some (Val.s e.salespersonNo) := rfl

theorem lookupField_indexPayload_customers (clock : ℤ) (yb : ℚ) (e : IdxEntry) :
    lookupField (indexPayload clock yb e) "customerNos" =
      some (Val.arr (jsSortStrings e.customers)) := rfl

/-! ### Claim theorems -/

/-- C1.  Full-run idempotence: with a fixed input file pair, a fixed cutoff
and a fixed clock, every derived document id is a deterministic function of
the input (`ingestAllWrites` is a pure function) and every write is a merge
upsert, so replaying the full ingestion's writes over the store they
produced changes nothing: two runs end in exactly the state of one run. -/
theorem ingest_run_idempotent (s : Store) (cutoff clock : ℤ) (yearsBack : ℚ)
    (hh hd : List Row) :
    applyWrites (applyWrites s (ingestAllWrites cutoff clock yearsBack hh hd))
        (ingestAllWrites cutoff clock yearsBack hh hd) =
      applyWrites s (ingestAllWrites cutoff clock yearsBack hh hd) :=
  applyWrites_idem s (ingestAllWrites cutoff clock yearsBack hh hd)

/-- C4.  Tiering determinism: `tierFromSales25` is a pure total function
onto exactly four bands with inclusive lower boundaries: `A` exactly on
`[10000, ∞)`, `B` exactly on `[5000, 10000)`, `C` exactly on `[2000, 5000)`
and `D` exactly on `(-∞, 2000)` (so `10000 → A`, `9999.99 → B`, `0 → D`). -/
theorem tierFromSales25_bands (s : ℚ) :
    (tierFromSales25 s = Tier.A ↔ 10000 ≤ s) ∧
    (tierFromSales25 s = Tier.B ↔ 5000 ≤ s ∧ s < 10000) ∧
    (tierFromSales25 s = Tier.C ↔ 2000 ≤ s ∧ s < 5000) ∧
    (tierFromSales25 s = Tier.D ↔ s < 2000) := by
  by_cases h1 : 10000 ≤ s
  · rw [show tierFromSales25 s = Tier.A by simp [tierFromSales25, h1]]
    refine ⟨⟨fun _ => h1, fun _ => rfl⟩,
      ⟨fun h => absurd h (by decide), fun h => absurd h1 (not_le.mpr h.2)⟩,
      ⟨fun h => absurd h (by decide),
        fun h => absurd h1 (not_le.mpr (h.2.trans_le (by norm_num)))⟩,
      ⟨fun h => absurd h (by decide),
        fun h => absurd h1 (not_le.mpr (h.trans_le (by norm_num)))⟩⟩
  · by_cases h2 : 5000 ≤ s
    · rw [show tierFromSales25 s = Tier.B by simp [tierFromSales25, h1, h2]]
      refine ⟨⟨fun h => absurd h (by decide), fun h => absurd h h1⟩,
        ⟨fun _ => ⟨h2, not_le.mp h1⟩, fun _ => rfl⟩,
        ⟨fun h => absurd h (by decide), fun h => absurd h2 (not_le.mpr h.2)⟩,
        ⟨fun h => absurd h (by decide),
          fun h => absurd h2 (not_le.mpr (h.trans_le (by norm_num)))⟩⟩
    · by_cases h3 : 2000 ≤ s
      · rw [show tierFromSales25 s = Tier.C by simp [tierFromSales25, h1, h2, h3]]
        refine ⟨⟨fun h => absurd h (by decide), fun h => absurd h h1⟩,
          ⟨fun h => absurd h (by decide), fun h => absurd h.1 h2⟩,
          ⟨fun _ => ⟨h3, not_le.mp h2⟩, fun _ => rfl⟩,
          ⟨fun h => absurd h (by decide), fun h => absurd h3 (not_le.mpr h)⟩⟩
      · rw [show tierFromSales25 s = Tier.D by simp [tierFromSales25, h1, h2, h3]]
        refine ⟨⟨fun h => absurd h (by decide), fun h => absurd h h1⟩,
          ⟨fun h => absurd h (by decide), fun h => absurd h.1 h2⟩,
          ⟨fun h => absurd h (by decide), fun h => absurd h.1 h3⟩,
          ⟨fun _ => not_le.mp h3, fun _ => rfl⟩⟩

/-- C6.  Writer retry policy: a successful commit returns at once; a
non-transient failure propagates immediately with no wait; a failure past
attempt 6 propagates as fatal; and a transient failure at attempt `a ≤ 6`
sleeps exactly `250·a²` ms and retries with the next attempt number, so
any call starting at attempt 1 performs at most 6 retries. -/
theorem commitWithRetry_policy :
    (∀ f a, f a = none → commitWithRetry f a = (none, [])) ∧
    (∀ f a msg, f a = some msg → isTransientMsg msg = false →
      commitWithRetry f a = (some msg, [])) ∧
    (∀ f a msg, f a = some msg → 6 < a → commitWithRetry f a = (some msg, [])) ∧
    (∀ f a msg, f a = some msg → isTransientMsg msg = true → a ≤ 6 →
      commitWithRetry f a =
        ((commitWithRetry f (a + 1)).1,
          250 * a * a :: (commitWithRetry f (a + 1)).2)) ∧
    (∀ f a, (commitWithRetry f a).2.length ≤ 7 - a) := by
  refine ⟨?_, ?_, ?_, ?_, ?_⟩
  · intro f a h
    rw [commitWithRetry_unfold, h]
  · intro f a msg h ht
    rw [commitWithRetry_unfold, h]
    dsimp only
    rw [if_neg (fun hc => by simp [ht] at hc)]
  · intro f a msg h ha
    rw [commitWithRetry_unfold, h]
    dsimp only
    rw [if_neg (fun hc => absurd hc.1 (by omega))]
  · intro f a msg h ht ha
    rw [commitWithRetry_unfold, h]
    dsimp only
    rw [if_pos ⟨ha, ht⟩]
  · intro f a
    have key : ∀ n (a : ℕ), 7 - a ≤ n → (commitWithRetry f a).2.length ≤ 7 - a := by
      intro n
      induction n with
      | zero =>
        intro a h0
        rw [commitWithRetry_unfold]
        rcases h : f a with _ | m
        · simp
        · dsimp only
          rw [if_neg (fun hc => absurd hc.1 (by omega))]
          simp
      | succ n ih =>
        intro a hle
        rw [commitWithRetry_unfold]
        rcases h : f a with _ | m
        · simp
        · dsimp only
          split_ifs with hc
          · have hr := ih (a + 1) (by omega)
            simp only [List.length_cons]
            omega
          · simp
    exact key 7 a (by omega)

/-- Witness for C6: a permission failure propagates with no retry, and a
transient `ABORTED` failure at attempt 1 sleeps 250 ms and retries. -/
theorem commitWithRetry_policy_witness :
    commitWithRetry (fun _ => some "PERMISSION_DENIED: forbidden") 1 =
      (some "PERMISSION_DENIED: forbidden", []) ∧
    commitWithRetry (fun _ => some "10 ABORTED: conflict") 1 =
      ((commitWithRetry (fun _ => some "10 ABORTED: conflict") 2).1,
        250 * 1 * 1 :: (commitWithRetry (fun _ => some "10 ABORTED: conflict") 2).2) :=
  ⟨commitWithRetry_policy.2.1 (fun _ => some "PERMISSION_DENIED: forbidden") 1
      "PERMISSION_DENIED: forbidden" rfl (by decide),
   commitWithRetry_policy.2.2.2.1 (fun _ => some "10 ABORTED: conflict") 1
      "10 ABORTED: conflict" rfl (by decide) (by decide)⟩

/-- C7 (amended).  `parseFixedDate` (`parseUSDate`) never raises: it yields
a date exactly when the trimmed input matches `M{1,2}/D{1,2}/YYYY` with a
nonzero month, day and year, and it performs no calendar-range validation
(out-of-range months or days roll over, see the counterexample). -/
theorem parseUSDate_acceptance (v : Option String) :
    (parseUSDate v).isSome = true ↔
      ∃ m d y, matchUSDate (cleanStr v) = some (m, d, y) ∧ m ≠ 0 ∧ d ≠ 0 ∧ y ≠ 0 := by
  have hdef : parseUSDate v =
      (match matchUSDate (cleanStr v) with
       | none => none
       | some (m, d, y) =>
         if m = 0 ∨ d = 0 ∨ y = 0 then none
         else some (jsDateValue (y : ℤ) ((m : ℤ) - 1) (d : ℤ))) := rfl
  rcases h : matchUSDate (cleanStr v) with _ | ⟨m, d, y⟩
  · rw [hdef, h]
    simp
  · rw [hdef, h]
    dsimp only
    by_cases hz : m = 0 ∨ d = 0 ∨ y = 0
    · rw [if_pos hz]
      simp only [Option.isSome_none]
      constructor
      · intro hfalse
        exact absurd hfalse (by decide)
      · rintro ⟨m', d', y', hm, hm0, hd0, hy0⟩
        obtain ⟨rfl, rfl, rfl⟩ : m = m' ∧ d = d' ∧ y = y' := by
          have e := Option.some.inj hm
          exact ⟨congrArg Prod.fst e, congrArg (fun t => t.2.1) e,
            congrArg (fun t => t.2.2) e⟩
        rcases hz with h0 | h0 | h0
        · exact absurd h0 hm0
        · exact absurd h0 hd0
        · exact absurd h0 hy0
    · rw [if_neg hz]
      push_neg at hz
      simp only [Option.isSome_some, true_iff]
      exact ⟨m, d, y, rfl, hz.1, hz.2.1, hz.2.2⟩

/-- Counterexample for C7 as stated: `"13/45/2024"` is not a valid
`MM/DD/YYYY` calendar date (month 13, day 45), yet `parseUSDate` accepts it
(rolling it over) instead of yielding "no date". -/
theorem parseUSDate_no_calendar_check_cex :
    (parseUSDate (some "13/45/2024")).isSome = true ∧
      specValidUSDateStr "13/45/2024" = false := by decide

/-- C8 (amended).  The identifier padding (`padSalesperson`) zero-pads every
nonempty trimmed identifier to width 4 — numeric-looking or not — and
returns identifiers of length `≥ 4` unchanged; `"7"` becomes `"0007"` (as
does `normRep "7"` in the lookup route), but the non-numeric `"AB"` becomes
`"00AB"` rather than passing through unchanged. -/
theorem padSalesperson_spec :
    (∀ v : Option String,
      padSalesperson v = if cleanStr v = "" then "" else padStart4 (cleanStr v)) ∧
    padSalesperson (some "7") = "0007" ∧
    padSalesperson (some "AB") = "00AB" ∧
    normRep (some "7") = "0007" := by
  refine ⟨fun v => ?_, by decide, by decide, by decide⟩
  unfold padSalesperson padStart4
  by_cases h1 : cleanStr v = ""
  · rw [if_pos h1, if_pos h1]
  · rw [if_neg h1, if_neg h1]
    by_cases h2 : 4 ≤ (cleanStr v).length
    · rw [if_pos h2, if_pos h2]
    · rw [if_neg h2]

/-- Counterexample for C8 as stated: `"AB"` is not numeric-looking, yet
`padIdentifier` (`padSalesperson`) does not return it unchanged — it
zero-pads it to `"00AB"`. -/
theorem padSalesperson_nonnumeric_cex :
    ("AB".data.all Char.isDigit) = false ∧
    padSalesperson (some "AB") = "00AB" ∧
    padSalesperson (some "AB") ≠ "AB" := by decide

/-- C10 (amended).  When the `oppCount` parameter parses to a nonnegative
number, the opportunities list has at most `min(oppCount, 25)` elements
(in particular at most 25); when the parameter is present but non-numeric,
`Number` yields `NaN`, `Math.min(NaN, 25)` is `NaN`, and slicing to `NaN`
keeps nothing, so the list is empty even when candidates exist.  (A
negative numeric parameter escapes the cap entirely, because `slice`
counts a negative end from the end of the array — see the
counterexample.) -/
theorem opportunities_count_policy (raw : Option String) (tier : Tier)
    (buyers : List String) (s1 s2 : List CustDoc) :
    (∀ q, oppCountOf raw = some q → 0 ≤ q →
      (opportunitiesFor raw tier buyers s1 s2).length ≤ 25 ∧
        ((opportunitiesFor raw tier buyers s1 s2).length : ℚ) ≤ q) ∧
    (∀ s, raw = some s → s ≠ "" → jsNumber s = none →
      opportunitiesFor raw tier buyers s1 s2 = []) := by
  constructor
  · intro q hq hq0
    have hq25 : q ≤ 25 := by
      unfold oppCountOf at hq
      split at hq
      · exact absurd hq (by simp)
      · rename_i v hv
        rw [← Option.some.inj hq]
        exact min_le_right v 25
    have ht0 : 0 ≤ ratTrunc q :=
      Int.tdiv_nonneg (Rat.num_nonneg.mpr hq0) (Int.natCast_nonneg q.den)
    have htfloor : ratTrunc q = ⌊q⌋ := by
      unfold ratTrunc
      rw [Int.tdiv_eq_ediv (Rat.num_nonneg.mpr hq0) (Int.natCast_nonneg q.den)]
      exact Rat.floor_def.symm
    have htq : (ratTrunc q : ℚ) ≤ q := by
      rw [htfloor]
      exact Int.floor_le q
    have ht25 : ratTrunc q ≤ 25 := by
      have : (ratTrunc q : ℚ) ≤ 25 := le_trans htq hq25
      exact_mod_cast this
    have hlen : (opportunitiesFor raw tier buyers s1 s2).length ≤ (ratTrunc q).toNat := by
      unfold opportunitiesFor jsSliceTo
      rw [hq]
      dsimp only
      rw [if_neg (not_lt.mpr ht0)]
      rw [List.length_take]
      exact le_trans (min_le_left _ _) (min_le_left _ _)
    constructor
    · exact le_trans hlen (Int.toNat_le.mpr ht25)
    · calc ((opportunitiesFor raw tier buyers s1 s2).length : ℚ)
          ≤ ((ratTrunc q).toNat : ℚ) := by exact_mod_cast hlen
        _ = ((ratTrunc q : ℤ) : ℚ) := by exact_mod_cast Int.toNat_of_nonneg ht0
        _ ≤ q := htq
  · intro s hraw hs hnan
    unfold opportunitiesFor jsSliceTo
    rw [show oppCountOf raw = none by
      unfold oppCountOf
      rw [hraw]
      dsimp only
      rw [if_neg hs, hnan]]

/-- Witness for C10: a numeric count of 10 bounds the list by 10, and a
present-but-non-numeric count yields an empty list even though a matching
tier-D non-buyer exists. -/
theorem opportunities_count_policy_witness :
    (oppCountOf (some "10") = some 10 ∧
      (opportunitiesFor (some "10") Tier.D [] [{ id := "X", udf25TotalSales := some "0" }] []).length ≤ 25 ∧
      ((opportunitiesFor (some "10") Tier.D [] [{ id := "X", udf25TotalSales := some "0" }] []).length : ℚ) ≤ 10) ∧
    (oppCandidates Tier.D [] [{ id := "X", udf25TotalSales := some "0" }] [] ≠ [] ∧
      opportunitiesFor (some "abc") Tier.D [] [{ id := "X", udf25TotalSales := some "0" }] [] = []) :=
  ⟨⟨by decide,
    ((opportunities_count_policy (some "10") Tier.D []
      [{ id := "X", udf25TotalSales := some "0" }] []).1 10 (by decide) (by decide)).1,
    ((opportunities_count_policy (some "10") Tier.D []
      [{ id := "X", udf25TotalSales := some "0" }] []).1 10 (by decide) (by decide)).2⟩,
   ⟨by decide,
    (opportunities_count_policy (some "abc") Tier.D []
      [{ id := "X", udf25TotalSales := some "0" }] []).2 "abc" rfl (by decide) (by decide)⟩⟩

/-- Counterexample for C10 as stated: with `oppCount = "-5"` and six
matching tier-D non-buyer candidates, the route returns one opportunity
(`slice(0, -5)` keeps `6 - 5 = 1`), but `min(oppCount, 25) = -5`, so the
claimed bound `length ≤ min(oppCount, 25)` is violated. -/
theorem opportunities_negative_count_cex :
    (opportunitiesFor (some "-5") Tier.D [] c10Docs []).length = 1 ∧
    oppCountOf (some "-5") = some (min (-5 : ℚ) 25) ∧
    ¬ ((1 : ℚ) ≤ min (-5 : ℚ) 25) := by
  refine ⟨?_, by decide, ?_⟩
  · unfold opportunitiesFor jsSliceTo
    rw [show oppCountOf (some "-5") = some (-5 : ℚ) by decide]
    dsimp only
    rw [if_pos (show ratTrunc (-5 : ℚ) < 0 by decide)]
    rw [List.length_take, List.length_mergeSort]
    rw [show (oppCandidates Tier.D [] c10Docs []).length = 6 by decide]
    decide
  · rw [show min (-5 : ℚ) 25 = -5 by norm_num]
    norm_num

/-- C9 (amended).  The part_016 header pass returns the rows-written count,
the in-window key set, and a single combined skipped counter equal to the
number of rows with a missing natural key plus the number of rows with a
missing, unparsable or out-of-window timestamp; the two skip causes share
one counter (they are not returned separately), and every row is either
written or skipped. -/
theorem header16_counter_contract (cutoff clock : ℤ) (rows : List Row) :
    (header16Run cutoff clock rows).skipped =
      specMissingKeyCount16 rows + specOutOfWindowCount16 cutoff rows ∧
    (header16Run cutoff clock rows).written + (header16Run cutoff clock rows).skipped =
      rows.length := by
  obtain ⟨h1, h2⟩ := header16RunAux_counts cutoff clock rows ⟨0, 0, [], []⟩ 0
  exact ⟨by simpa using h1, by simpa using h2⟩

/-- Counterexample for C9 as stated: two inputs whose skip causes differ
(two missing-key rows versus one missing-key row plus one out-of-window
row) produce identical importer outputs — written count, skipped count,
in-window set and writes all coincide — so the importer does not return
the two skip causes as separate counts. -/
theorem header16_single_skip_counter_cex :
    header16Run (jsDateValue 2023 0 1) 0 c9RowsA =
      header16Run (jsDateValue 2023 0 1) 0 c9RowsB ∧
    specMissingKeyCount16 c9RowsA ≠ specMissingKeyCount16 c9RowsB := by decide

/-- C2 (amended).  Window-joined detail gate: the detail pass enqueues
exactly one line write for the `i`-th detail row iff that row is nonempty,
its parent key is in the in-window set, and it carries an item code or
description; and the in-window set holds exactly the keys of header rows
whose date parses to a value `≥ cutoff` — a lower bound only, with no upper
bound at `now`, and item-less detail rows of in-window parents are dropped
(both amendments forced by the code; see the counterexample). -/
theorem detail_window_gate (hh hd : List Row) (cutoff clock : ℤ) (i : ℕ)
    (hi : i < hd.length) :
    (detailRun17 (headerRun17 cutoff clock hh).inRange clock hd).writes.countP
        (fun w => wSrcIdx w == some (i + 1)) =
      (if lineKept (headerRun17 cutoff clock hh).inRange (hd.get ⟨i, hi⟩) = true
        then 1 else 0) ∧
    (∀ inv, inv ∈ (headerRun17 cutoff clock hh).inRange ↔
      ∃ r ∈ hh, headKept cutoff r = true ∧ cleanStr (ciGet r "InvoiceNo") = inv) := by
  constructor
  · unfold detailRun17
    rw [detailRun17Aux_writes]
    have := countP_lineWritesFrom (headerRun17 cutoff clock hh).inRange clock hd 0 i hi
    simpa using this
  · intro inv
    unfold headerRun17
    rw [headerRun17Aux_inRange]
    simp

/-- Witness for C2: one in-window header and one detail row for it — the
detail pass enqueues exactly one write for that row. -/
theorem detail_window_gate_witness :
    0 < c2HD.length ∧
    (detailRun17 (headerRun17 (jsDateValue 2023 0 1) 0 c2HH).inRange 0 c2HD).writes.countP
        (fun w => wSrcIdx w == some (0 + 1)) =
      (if lineKept (headerRun17 (jsDateValue 2023 0 1) 0 c2HH).inRange
          (c2HD.get ⟨0, by decide⟩) = true then 1 else 0) :=
  ⟨by decide, (detail_window_gate c2HH c2HD (jsDateValue 2023 0 1) 0 0 (by decide)).1⟩

/-- Counterexample for C2 as stated: a header dated 01/01/9999 — far above
any plausible `now` (say 2026-10-12), hence outside `[now − yearsBack,
now]` — is accepted by the header pass (the filter only checks
`invoiceDate < cutoff`), and its detail row is persisted. -/
theorem detail_window_no_upper_bound_cex :
    (detailRun17 (headerRun17 (jsDateValue 2023 9 12) 0 c2FutureHH).inRange 0
      c2FutureHD).writes.length = 1 ∧
    parseUSDate (some "01/01/9999") = some (jsDateValue 9999 0 1) ∧
    jsDateValue 2026 9 12 < jsDateValue 9999 0 1 := by decide

/-- C3.  Aggregate correctness: for every header with at least one written
detail line, the accumulated `merchTotal` is exactly the sum of the
`extensionAmt` values (as parsed by `parseNumber`, commas and currency
symbols stripped) of that header's written lines, and the totals pass
enqueues a write back onto the header doc with that `merchTotal` and
`invoiceTotalComputed = merchTotal + freight − discount`, using the freight
and discount captured in memory during the header pass. -/
theorem invoice_aggregates_correct (hh hd : List Row) (cutoff clock : ℤ) (inv : String)
    (hne : lineContribs (headerRun17 cutoff clock hh).inRange inv hd ≠ []) :
    alFind (detailRun17 (headerRun17 cutoff clock hh).inRange clock hd).merchTotals inv =
      some ((lineContribs (headerRun17 cutoff clock hh).inRange inv hd).sum) ∧
    ∃ w ∈ totalsWrites17 clock (headerRun17 cutoff clock hh).freight
        (headerRun17 cutoff clock hh).discount
        (detailRun17 (headerRun17 cutoff clock hh).inRange clock hd).merchTotals,
      w.path = DocPath.invoice (normalizeDocId (some inv)) ∧
      lookupField w.payload "merchTotal" =
        some (Val.n ((lineContribs (headerRun17 cutoff clock hh).inRange inv hd).sum)) ∧
      lookupField w.payload "invoiceTotalComputed" =
        some (Val.n ((lineContribs (headerRun17 cutoff clock hh).inRange inv hd).sum +
          (alFind (headerRun17 cutoff clock hh).freight inv).getD 0 -
          (alFind (headerRun17 cutoff clock hh).discount inv).getD 0)) := by
  have h1 : alFind (detailRun17 (headerRun17 cutoff clock hh).inRange clock hd).merchTotals
      inv = some ((lineContribs (headerRun17 cutoff clock hh).inRange inv hd).sum) := by
    unfold detailRun17
    rw [detailRun17Aux_merch]
    rw [if_neg hne]
    simp [alFind]
  refine ⟨h1, ?_⟩
  have hmem := mem_of_alFind_eq_some _ _ _ h1
  exact ⟨mkTotalsWrite17 clock (headerRun17 cutoff clock hh).freight
      (headerRun17 cutoff clock hh).discount
      (inv, (lineContribs (headerRun17 cutoff clock hh).inRange inv hd).sum),
    List.mem_map_of_mem _ hmem, rfl, rfl, rfl⟩

/-- Witness for C3, the spec's aggregate scenario: `INV1` has lines with
`extensionAmt` `10.50` and `"$25,00"` (parsed as `2500`), so
`merchTotal = 2510.50`. -/
theorem invoice_aggregates_correct_witness :
    lineContribs (headerRun17 (jsDateValue 2023 0 1) 0 c3HH).inRange "INV1" c3HD ≠ [] ∧
    alFind (detailRun17 (headerRun17 (jsDateValue 2023 0 1) 0 c3HH).inRange 0
        c3HD).merchTotals "INV1" =
      some ((lineContribs (headerRun17 (jsDateValue 2023 0 1) 0 c3HH).inRange "INV1"
        c3HD).sum) ∧
    (lineContribs (headerRun17 (jsDateValue 2023 0 1) 0 c3HH).inRange "INV1" c3HD).sum =
      2510.5 :=
  ⟨by decide,
   (invoice_aggregates_correct c3HH c3HD (jsDateValue 2023 0 1) 0 "INV1" (by decide)).1,
   by
     rw [show lineContribs (headerRun17 (jsDateValue 2023 0 1) 0 c3HH).inRange "INV1" c3HD =
         [parseNumber (some "10.50"), parseNumber (some "$25,00")] from rfl]
     rw [show parseNumber (some "10.50") =
         ((10 : ℕ) : ℚ) + ((50 : ℕ) : ℚ) / ((10 : ℚ) ^ 2) from rfl]
     rw [show parseNumber (some "$25,00") = ((2500 : ℕ) : ℚ) from rfl]
     norm_num [List.sum_cons, List.sum_nil]⟩

/-- C5 (amended).  For every `(item, owner)` pair with at least one
contributing in-window detail row (parent mapped by the header pass with a
nonempty account and owner, nonempty item code), provided no other
contributing pair collides with it on the composite key
`item ++ "__" ++ owner`, the index builder writes exactly one entry whose
payload carries that pair, and its `customerNos` array is sorted,
duplicate-free, and holds exactly the accounts contributed by that pair.
(Without the no-collision hypothesis the claim fails — see the
counterexample.) -/
theorem index_entry_per_pair (cutoff clock : ℤ) (yearsBack : ℚ) (hh hd : List Row)
    (item sp : String)
    (hne : pairContribs (invMapRun cutoff hh) hd item sp ≠ [])
    (huni : ∀ t ∈ idxContribs (invMapRun cutoff hh) hd,
      contribKeyOf t = item ++ "__" ++ sp → t.1 = item ∧ t.2.1 = sp) :
    ((indexRunWrites cutoff clock yearsBack hh hd).countP
        (fun w => decide (lookupField w.payload "itemCode" = some (Val.s item)) &&
          decide (lookupField w.payload "salespersonNo" = some (Val.s sp))) = 1) ∧
    (∀ w ∈ indexRunWrites cutoff clock yearsBack hh hd,
      lookupField w.payload "itemCode" = some (Val.s item) →
      lookupField w.payload "salespersonNo" = some (Val.s sp) →
      ∃ cs, lookupField w.payload "customerNos" = some (Val.arr cs) ∧
        List.Sorted (fun a b : String => a ≤ b) cs ∧ cs.Nodup ∧
        (∀ c, c ∈ cs ↔
          ∃ t ∈ pairContribs (invMapRun cutoff hh) hd item sp, t.2.2 = c)) := by
  obtain ⟨hnd, hkey⟩ := idxRun_good (invMapRun cutoff hh) hd
  obtain ⟨t0, ht0⟩ := List.exists_mem_of_ne_nil _ hne
  have ht0f := List.mem_filter.mp ht0
  have ht0p : t0.1 = item ∧ t0.2.1 = sp := by simpa using ht0f.2
  have ht0key : contribKeyOf t0 = item ++ "__" ++ sp := by
    unfold contribKeyOf
    rw [ht0p.1, ht0p.2]
  have hCK : t0 ∈ (idxContribs (invMapRun cutoff hh) hd).filter
      (fun t => contribKeyOf t = item ++ "__" ++ sp) :=
    List.mem_filter.mpr ⟨ht0f.1, by simp [ht0key]⟩
  rcases hfind : alFind (idxRun (invMapRun cutoff hh) hd) (item ++ "__" ++ sp) with _ | e
  · exfalso
    have hnil : (idxContribs (invMapRun cutoff hh) hd).filter
        (fun t => contribKeyOf t = item ++ "__" ++ sp) = [] :=
      (hkey (item ++ "__" ++ sp)).1 hfind
    rw [hnil] at hCK
    simp at hCK
  · obtain ⟨hck, hpair, hnodupcs, hmemcs0⟩ := (hkey (item ++ "__" ++ sp)).2 e hfind
    have hmemcs : ∀ c, c ∈ e.customers ↔
        ∃ t ∈ (idxContribs (invMapRun cutoff hh) hd).filter
          (fun t => contribKeyOf t = item ++ "__" ++ sp), t.2.2 = c := hmemcs0
    have hpair' : e.itemCode = item ∧ e.salespersonNo = sp := by
      obtain ⟨t1, ht1, h11, h12⟩ := hpair
      have ht1f : t1 ∈ (idxContribs (invMapRun cutoff hh) hd).filter
          (fun t => contribKeyOf t = item ++ "__" ++ sp) := ht1
      have ht1' := List.mem_filter.mp ht1f
      have hu := huni t1 ht1'.1 (by simpa using ht1'.2)
      exact ⟨h11 ▸ hu.1, h12 ▸ hu.2⟩
    have hmemE : (item ++ "__" ++ sp, e) ∈ idxRun (invMapRun cutoff hh) hd :=
      mem_of_alFind_eq_some _ _ _ hfind
    have hiff : ∀ t, t ∈ (idxContribs (invMapRun cutoff hh) hd).filter
        (fun t => contribKeyOf t = item ++ "__" ++ sp) ↔
        t ∈ pairContribs (invMapRun cutoff hh) hd item sp := by
      intro t
      constructor
      · intro h
        have h' := List.mem_filter.mp h
        have hu := huni t h'.1 (by simpa using h'.2)
        exact List.mem_filter.mpr ⟨h'.1, by simp [hu.1, hu.2]⟩
      · intro h
        have h' := List.mem_filter.mp h
        have hp : t.1 = item ∧ t.2.1 = sp := by simpa using h'.2
        exact List.mem_filter.mpr ⟨h'.1, by simp [contribKeyOf, hp.1, hp.2]⟩
    constructor
    · unfold indexRunWrites indexWrites
      rw [List.countP_map]
      have hcong : (idxRun (invMapRun cutoff hh) hd).countP
          ((fun w => decide (lookupField w.payload "itemCode" = some (Val.s item)) &&
            decide (lookupField w.payload "salespersonNo" = some (Val.s sp))) ∘
            (fun p => ({ path := DocPath.indexDoc (normalizeDocId (some p.1))
                         payload := indexPayload clock yearsBack p.2 } : Write))) =
          (idxRun (invMapRun cutoff hh) hd).countP
            (fun q => decide (q.1 = item ++ "__" ++ sp)) := by
        apply List.countP_congr
        intro q hq
        simp only [Function.comp_apply, lookupField_indexPayload_item,
          lookupField_indexPayload_sp, Bool.and_eq_true, decide_eq_true_eq,
          Option.some.injEq, Val.s.injEq]
        have hfq := alFind_of_mem_nodupKeys _ _ _ hnd hq
        obtain ⟨hckq, _, _, _⟩ := (hkey q.1).2 q.2 hfq
        constructor
        · rintro ⟨h1, h2⟩
          rw [← hckq, h1, h2]
        · intro h1
          have : alFind (idxRun (invMapRun cutoff hh) hd) (item ++ "__" ++ sp) =
              some q.2 := by rw [← h1]; exact hfq
          have hq2 : q.2 = e := Option.some.inj (this.symm.trans hfind)
          rw [hq2]
          exact hpair'
      rw [hcong, List.countP_eq_length_filter]
      rw [filter_key_of_nodupKeys _ _ _ hnd hmemE]
      rfl
    · intro w hw hitem hsp
      unfold indexRunWrites indexWrites at hw
      obtain ⟨q, hq, hweq⟩ := List.mem_map.mp hw
      rw [← hweq] at hitem hsp
      simp only [lookupField_indexPayload_item, lookupField_indexPayload_sp,
        Option.some.injEq, Val.s.injEq] at hitem hsp
      have hfq := alFind_of_mem_nodupKeys _ _ _ hnd hq
      obtain ⟨hckq, _, _, _⟩ := (hkey q.1).2 q.2 hfq
      have hq1 : q.1 = item ++ "__" ++ sp := by rw [← hckq, hitem, hsp]
      have hfq' : alFind (idxRun (invMapRun cutoff hh) hd) (item ++ "__" ++ sp) =
          some q.2 := by rw [← hq1]; exact hfq
      have hq2 : q.2 = e := Option.some.inj (hfq'.symm.trans hfind)
      refine ⟨jsSortStrings q.2.customers, ?_, ?_, ?_, ?_⟩
      · rw [← hweq]
        exact lookupField_indexPayload_customers clock yearsBack q.2
      · unfold jsSortStrings
        exact List.sorted_mergeSort' q.2.customers
      · have hperm := List.mergeSort_perm q.2.customers (fun a b => a ≤ b)
        refine hperm.nodup_iff.mpr ?_
        rw [hq2]
        exact hnodupcs
      · intro c
        unfold jsSortStrings
        rw [(List.mergeSort_perm q.2.customers (fun a b => a ≤ b)).mem_iff]
        have hc : c ∈ q.2.customers ↔
            ∃ t ∈ (idxContribs (invMapRun cutoff hh) hd).filter
              (fun t => contribKeyOf t = item ++ "__" ++ sp), t.2.2 = c := by
          rw [hq2]
          exact hmemcs c
        rw [hc]
        constructor
        · rintro ⟨t, ht, htc⟩
          exact ⟨t, (hiff t).mp ht, htc⟩
        · rintro ⟨t, ht, htc⟩
          exact ⟨t, (hiff t).mpr ht, htc⟩

/-- Witness for C5: one in-window purchase of item `A` by `CUSTA` under
owner `0007` produces exactly one index write for the pair. -/
theorem index_entry_per_pair_witness :
    pairContribs (invMapRun (jsDateValue 2023 0 1) c5HH) c5HD "A" "0007" ≠ [] ∧
    (indexRunWrites (jsDateValue 2023 0 1) 0 3 c5HH c5HD).countP
        (fun w => decide (lookupField w.payload "itemCode" = some (Val.s "A")) &&
          decide (lookupField w.payload "salespersonNo" = some (Val.s "0007"))) = 1 :=
  ⟨by decide,
   (index_entry_per_pair (jsDateValue 2023 0 1) 0 3 c5HH c5HD "A" "0007"
      (by decide) (by decide)).1⟩

/-- Counterexample for C5 as stated: the pairs `(A__B, 000C)` and
`(A, B__000C)` collide on the composite key `A__B__000C`, so the single
index write for that key pools their accounts: its `customerNos` contains
`CUSTB`, although no in-window detail row for item `A__B` under owner
`000C` involves account `CUSTB` (`CUSTA` is the only such account). -/
theorem index_key_collision_cex :
    indexRunWrites (jsDateValue 2023 0 1) 0 3 c5xHH c5xHD =
      [{ path := DocPath.indexDoc "A__B__000C"
         payload := indexPayload 0 3 ⟨"A__B", "000C", ["CUSTA", "CUSTB"]⟩ }] ∧
    lookupField (indexPayload 0 3 ⟨"A__B", "000C", ["CUSTA", "CUSTB"]⟩) "customerNos" =
      some (Val.arr (jsSortStrings ["CUSTA", "CUSTB"])) ∧
    "CUSTB" ∈ jsSortStrings ["CUSTA", "CUSTB"] ∧
    (pairContribs (invMapRun (jsDateValue 2023 0 1) c5xHH) c5xHD "A__B" "000C").map
      (fun t => t.2.2) = ["CUSTA"] ∧
    "CUSTB" ∉ (["CUSTA"] : List String) := by
  refine ⟨rfl, rfl, ?_, by decide, by decide⟩
  rw [show jsSortStrings ["CUSTA", "CUSTB"] =
      List.mergeSort ["CUSTA", "CUSTB"] (fun a b => a ≤ b) from rfl]
  rw [(List.mergeSort_perm ["CUSTA", "CUSTB"] (fun a b => a ≤ b)).mem_iff]
  decide

end ETPortal
